import Mathlib

/-!
Verification of the NotebookLM RPC client core (`notebooklm_tools.core`):
a shallow embedding, in Lean 4, of the request-encoding, response-extraction,
retry, auth-recovery, upload-validation, download and data-table-parsing
logic of the Python sources, together with theorems settling the spec's
claims about them.

Modelling conventions:
- Python `str` values are modelled as `PyStr := List Char` (sequences of
  Unicode scalar values).
- Python bytes in downloads are likewise modelled as character lists.
- Python JSON-like response payloads are modelled by the inductive `PyVal`
  (None, bool, int, float, str, list); floats carry an opaque index, since
  no modelled code path inspects a float beyond its type.
- Raising an exception is modelled with `Except`.
-/

deriving instance DecidableEq for Except

namespace NLM

set_option linter.unusedVariables false

/-! ## Python string helpers -/

/-- Python string type, as a list of Unicode scalar values. -/
abbrev PyStr := List Char

/-- The characters Python's `str.strip()` removes: the Unicode whitespace
set used by `str` (ASCII whitespace, the C1 separators 0x1c-0x1f, and the
Unicode space characters). -/
def isPySpace (c : Char) : Bool :=
  (9 ≤ c.toNat && c.toNat ≤ 13) || (28 ≤ c.toNat && c.toNat ≤ 32) ||
  c.toNat = 0x85 || c.toNat = 0xa0 || c.toNat = 0x1680 ||
  (0x2000 ≤ c.toNat && c.toNat ≤ 0x200a) ||
  c.toNat = 0x2028 || c.toNat = 0x2029 || c.toNat = 0x202f ||
  c.toNat = 0x205f || c.toNat = 0x3000

/-- Python `s.strip()`: drop leading and trailing whitespace. -/
def pyStrip (s : PyStr) : PyStr :=
  ((s.dropWhile isPySpace).reverse.dropWhile isPySpace).reverse

/-- Python `" ".join(parts)` (and `"" if not parts`, which coincides). -/
def joinSpace : List PyStr → PyStr
  | [] => []
  | [x] => x
  | x :: y :: rest => x ++ ' ' :: joinSpace (y :: rest)

/-- Python `s.lower()` restricted to the ASCII mapping (the modelled
strings that are lowercased are file extensions and content types). -/
def pyLower (s : PyStr) : PyStr := s.map Char.toLower

/-! ## JSON serialization (`json.dumps(..., separators=(',', ':'))`)

`_build_request_body` serializes with Python's `json.dumps` using compact
separators and the default `ensure_ascii=True`, so every emitted character
is printable ASCII and non-ASCII characters appear as `\uXXXX` escapes
(astral code points as surrogate pairs). -/

/-- Lowercase hex digit, as emitted by Python's `"\u%04x"` escape format. -/
def hexLower (n : Nat) : Char :=
  if n < 10 then Char.ofNat (48 + n) else Char.ofNat (87 + n)

/-- Four lowercase hex digits of `n < 0x10000`, most significant first. -/
def hex4L (n : Nat) : List Char :=
  [hexLower (n / 4096 % 16), hexLower (n / 256 % 16),
   hexLower (n / 16 % 16), hexLower (n % 16)]

/-- One character as escaped by `json.dumps` with `ensure_ascii=True`:
quote and backslash get two-character escapes, the named control escapes
`\b \t \n \f \r` apply, other controls and all non-ASCII characters
become `\uXXXX` (surrogate pairs above 0xFFFF), and printable ASCII
passes through. -/
def escapeChar (c : Char) : List Char :=
  if c = '"' then ['\\', '"']
  else if c = '\\' then ['\\', '\\']
  else if c = '\n' then ['\\', 'n']
  else if c = '\r' then ['\\', 'r']
  else if c = '\t' then ['\\', 't']
  else if c.toNat = 8 then ['\\', 'b']
  else if c.toNat = 12 then ['\\', 'f']
  else if c.toNat < 0x20 then '\\' :: 'u' :: hex4L c.toNat
  else if c.toNat ≤ 0x7e then [c]
  else if c.toNat < 0x10000 then '\\' :: 'u' :: hex4L c.toNat
  else
    ('\\' :: 'u' :: hex4L (0xd800 + (c.toNat - 0x10000) / 0x400)) ++
    ('\\' :: 'u' :: hex4L (0xdc00 + (c.toNat - 0x10000) % 0x400))

/-- A JSON string literal: quote, escaped characters, quote. -/
def dumpsStr (s : PyStr) : List Char :=
  '"' :: (s.flatMap escapeChar ++ ['"'])

/-- The JSON fragment the batchexecute envelope is built from: the outer
`f.req` structure `[[[rpc_id, params_json, null, "generic"]]]` contains
only arrays, strings and `null` (the params JSON travels inside it as an
already-serialized string). -/
inductive Jval where
  | null
  | jstr (s : PyStr)
  | jarr (xs : List Jval)

mutual
/-- `json.dumps` (compact separators) on the envelope fragment. -/
def dumpsVal : Jval → List Char
  | .null => ['n', 'u', 'l', 'l']
  | .jstr s => dumpsStr s
  | .jarr xs => '[' :: (dumpsArr xs ++ [']'])
/-- Comma-separated renderings of an array's elements. -/
def dumpsArr : List Jval → List Char
  | [] => []
  | v :: vs => dumpsVal v ++ dumpsSep vs
/-- The `,`-prefixed continuation of an array rendering. -/
def dumpsSep : List Jval → List Char
  | [] => []
  | v :: vs => ',' :: (dumpsVal v ++ dumpsSep vs)
end

/-- Arbitrary JSON-serializable params for an RPC call (the non-float
fragment: None, bools, ints, strings, lists, and string-keyed dicts). -/
inductive Jparam where
  | null
  | jbool (b : Bool)
  | jint (n : Int)
  | jstr (s : PyStr)
  | jarr (xs : List Jparam)
  | jobj (kvs : List (PyStr × Jparam))

/-- Decimal rendering of a Python int. -/
def intChars (i : Int) : List Char :=
  (if i < 0 then ['-'] else []) ++ Nat.toDigits 10 i.natAbs

mutual
/-- `json.dumps(params, separators=(',', ':'))`: the compact serialization
of the params payload (dict entries in insertion order, Python's default). -/
def dumpsParam : Jparam → List Char
  | .null => ['n', 'u', 'l', 'l']
  | .jbool true => ['t', 'r', 'u', 'e']
  | .jbool false => ['f', 'a', 'l', 's', 'e']
  | .jint i => intChars i
  | .jstr s => dumpsStr s
  | .jarr xs => '[' :: (dumpsParamArr xs ++ [']'])
  | .jobj kvs => Char.ofNat 0x7b :: (dumpsParamObj kvs ++ [Char.ofNat 0x7d])
def dumpsParamArr : List Jparam → List Char
  | [] => []
  | v :: vs => dumpsParam v ++ dumpsParamSep vs
def dumpsParamSep : List Jparam → List Char
  | [] => []
  | v :: vs => ',' :: (dumpsParam v ++ dumpsParamSep vs)
def dumpsParamObj : List (PyStr × Jparam) → List Char
  | [] => []
  | kv :: rest => dumpsStr kv.1 ++ ':' :: (dumpsParam kv.2 ++ dumpsParamObjSep rest)
def dumpsParamObjSep : List (PyStr × Jparam) → List Char
  | [] => []
  | kv :: rest => ',' :: (dumpsStr kv.1 ++ ':' :: (dumpsParam kv.2 ++ dumpsParamObjSep rest))
end

/-! ## JSON decoding (`json.loads` on the envelope fragment)

A recursive-descent decoder for the fragment the envelope round-trip
exercises (null / strings with full escape handling / arrays), structural
on a fuel argument.  Escapes cover the named ones, `\uXXXX`, and
surrogate-pair combination exactly as CPython's `py_scanstring` does. -/

/-- JSON insignificant whitespace. -/
def isJsonWs (c : Char) : Bool := c = ' ' || c = '\t' || c = '\n' || c = '\r'

/-- Skip insignificant whitespace. -/
def skipWs : List Char → List Char
  | c :: cs => if isJsonWs c then skipWs cs else c :: cs
  | [] => []

/-- Value of one hex digit (either case), if it is one. -/
def hexVal (c : Char) : Option Nat :=
  if 48 ≤ c.toNat ∧ c.toNat ≤ 57 then some (c.toNat - 48)
  else if 97 ≤ c.toNat ∧ c.toNat ≤ 102 then some (c.toNat - 87)
  else if 65 ≤ c.toNat ∧ c.toNat ≤ 70 then some (c.toNat - 55)
  else none

/-- Value of four hex digits, most significant first. -/
def hex4 (a b c d : Char) : Option Nat :=
  match hexVal a, hexVal b, hexVal c, hexVal d with
  | some va, some vb, some vc, some vd => some (((va * 16 + vb) * 16 + vc) * 16 + vd)
  | _, _, _, _ => none

/-- Named single-character escapes of JSON. -/
def unescape (c : Char) : Option Char :=
  if c = '"' then some '"'
  else if c = '\\' then some '\\'
  else if c = '/' then some '/'
  else if c = 'b' then some (Char.ofNat 8)
  else if c = 'f' then some (Char.ofNat 12)
  else if c = 'n' then some '\n'
  else if c = 'r' then some '\r'
  else if c = 't' then some '\t'
  else none

/-- After a `\uXXXX` escape decoded to a high surrogate `n`, CPython looks
for an immediately following low-surrogate escape: if present the pair is
merged into one astral code point and both escapes are consumed, otherwise
the lone value stands and scanning resumes after the first escape. -/
def surrogateStep (n : Nat) (rest : List Char) : Char × List Char :=
  match rest with
  | '\\' :: 'u' :: a2 :: b2 :: c2 :: d2 :: rest2 =>
      match hex4 a2 b2 c2 d2 with
      | some m =>
          if 0xdc00 ≤ m ∧ m ≤ 0xdfff then
            (Char.ofNat (0x10000 + (n - 0xd800) * 0x400 + (m - 0xdc00)), rest2)
          else (Char.ofNat n, rest)
      | none => (Char.ofNat n, rest)
  | _ => (Char.ofNat n, rest)

/-- Decode a string body after its opening quote, accumulator reversed.
A `\uXXXX` escape carrying a high surrogate merges with an immediately
following low-surrogate escape via `surrogateStep`. -/
def parseStrAux (acc : List Char) : List Char → Option (PyStr × List Char)
  | '"' :: rest => some (acc.reverse, rest)
  | '\\' :: 'u' :: a :: b :: c :: d :: rest =>
      match hex4 a b c d with
      | some n =>
          if 0xd800 ≤ n ∧ n ≤ 0xdbff then
            parseStrAux ((surrogateStep n rest).1 :: acc) (surrogateStep n rest).2
          else parseStrAux (Char.ofNat n :: acc) rest
      | none => none
  | '\\' :: e :: rest =>
      match unescape e with
      | some ch => parseStrAux (ch :: acc) rest
      | none => none
  | c :: rest => parseStrAux (c :: acc) rest
  | [] => none
termination_by inp => inp.length
decreasing_by
  all_goals simp
  all_goals try omega
  have hss : (surrogateStep n rest).2.length ≤ rest.length := by
    unfold surrogateStep
    split
    · split
      · split
        · simp
          omega
        · simp
      · simp
    · simp
  omega

mutual
/-- Parse one JSON value of the fragment (fuel-structural). -/
def parseVal : Nat → List Char → Option (Jval × List Char)
  | 0, _ => none
  | fuel + 1, cs =>
      match skipWs cs with
      | 'n' :: 'u' :: 'l' :: 'l' :: r => some (.null, r)
      | '"' :: r =>
          match parseStrAux [] r with
          | some (s, r2) => some (.jstr s, r2)
          | none => none
      | '[' :: r =>
          match skipWs r with
          | ']' :: r2 => some (.jarr [], r2)
          | r2 =>
              match parseElems fuel r2 with
              | some (es, r3) => some (.jarr es, r3)
              | none => none
      | _ => none
/-- Parse one-or-more comma-separated values up to the closing bracket. -/
def parseElems : Nat → List Char → Option (List Jval × List Char)
  | 0, _ => none
  | fuel + 1, cs =>
      match parseVal fuel cs with
      | some (v, r) =>
          match skipWs r with
          | ',' :: r2 =>
              match parseElems fuel (skipWs r2) with
              | some (vs, r3) => some (v :: vs, r3)
              | none => none
          | ']' :: r2 => some ([v], r2)
          | _ => none
      | none => none
end

/-- `json.loads` on the envelope fragment: parse one complete document. -/
def loads (cs : List Char) : Option Jval :=
  match parseVal (cs.length + 1) cs with
  | some (v, r) => if skipWs r = [] then some v else none
  | none => none

/-! ## Percent-encoding (`urllib.parse.quote(s, safe='')`)

With `safe=''` every character outside urllib's always-safe set
(ASCII letters, digits, `_ . - ~`) is `%XX`-encoded, `/` included.
The payloads quoted here are `json.dumps` outputs, which are pure ASCII,
so the byte layer coincides with the character layer. -/

/-- urllib's always-safe characters (`safe=''` adds none). -/
def isUrlSafe (c : Char) : Bool :=
  (65 ≤ c.toNat && c.toNat ≤ 90) || (97 ≤ c.toNat && c.toNat ≤ 122) ||
  (48 ≤ c.toNat && c.toNat ≤ 57) ||
  c = '_' || c = '.' || c = '-' || c = '~'

/-- Uppercase hex digit, as in urllib's `%XX` escapes. -/
def hexUpper (n : Nat) : Char :=
  if n < 10 then Char.ofNat (48 + n) else Char.ofNat (55 + n)

/-- Percent-encode one character (byte, for the ASCII payloads quoted here). -/
def percentEncodeChar (c : Char) : List Char :=
  if isUrlSafe c then [c]
  else ['%', hexUpper (c.toNat / 16 % 16), hexUpper (c.toNat % 16)]

/-- `urllib.parse.quote(s, safe='')`. -/
def percentEncode (s : List Char) : List Char := s.flatMap percentEncodeChar

/-- `urllib.parse.unquote` on an ASCII payload: decode each `%XX` escape,
pass invalid escapes through unchanged. -/
def percentDecode : List Char → List Char
  | '%' :: a :: b :: rest =>
      match hexVal a, hexVal b with
      | some x, some y => Char.ofNat (x * 16 + y) :: percentDecode rest
      | _, _ => '%' :: percentDecode (a :: b :: rest)
  | c :: rest => c :: percentDecode rest
  | [] => []

/-! ## `BaseClient._build_request_body` -/

/-- The structure `[[[rpc_id, params_json, null, "generic"]]]` that
`_build_request_body` wraps around the already-serialized params. -/
def fReqStructure (rpcId : PyStr) (params : Jparam) : Jval :=
  .jarr [.jarr [.jarr [.jstr rpcId, .jstr (dumpsParam params), .null,
                       .jstr "generic".toList]]]

/-- `BaseClient._build_request_body(rpc_id, params)`: serialize the params
compactly, wrap, serialize again, percent-encode with `safe=''`, prefix
with `f.req=`, append `at=<csrf>` when a CSRF token is set, join the parts
with `&` and add a trailing `&`. -/
def buildRequestBody (rpcId : PyStr) (params : Jparam) (csrfToken : Option PyStr) :
    List Char :=
  let fReqJson := dumpsVal (fReqStructure rpcId params)
  let bodyParts : List (List Char) :=
    ("f.req=".toList ++ percentEncode fReqJson) ::
      (match csrfToken with
       | some t => [("at=".toList ++ percentEncode t)]
       | none => [])
  List.intercalate ['&'] bodyParts ++ ['&']

/-! ## Python response values

Parsed batchexecute payloads are JSON-like Python values.  `pfloat`
carries an opaque index: no modelled code path inspects a float beyond
its type (floats only ever occur as skipped leaves). -/

inductive PyVal where
  | none
  | pbool (b : Bool)
  | pint (n : Int)
  | pfloat (id : Nat)
  | pstr (s : PyStr)
  | plist (xs : List PyVal)

mutual
/-- Structural equality on Python values (Python `==` for this fragment). -/
def PyVal.beq : PyVal → PyVal → Bool
  | .none, .none => true
  | .pbool a, .pbool b => a == b
  | .pint a, .pint b => a == b
  | .pfloat a, .pfloat b => a == b
  | .pstr a, .pstr b => a == b
  | .plist a, .plist b => PyVal.beqList a b
  | _, _ => false
/-- Pointwise equality of Python value lists. -/
def PyVal.beqList : List PyVal → List PyVal → Bool
  | [], [] => true
  | a :: as', b :: bs' => PyVal.beq a b && PyVal.beqList as' bs'
  | _, _ => false
end

instance : BEq PyVal := ⟨PyVal.beq⟩

mutual
theorem PyVal.beq_iff : ∀ a b : PyVal, PyVal.beq a b = true ↔ a = b
  | .none, b => by cases b <;> simp [PyVal.beq]
  | .pbool x, b => by cases b <;> simp [PyVal.beq]
  | .pint x, b => by cases b <;> simp [PyVal.beq]
  | .pfloat x, b => by cases b <;> simp [PyVal.beq]
  | .pstr x, b => by cases b <;> simp [PyVal.beq]
  | .plist xs, b => by
      cases b <;> simp [PyVal.beq]
      exact PyVal.beqList_iff xs _
theorem PyVal.beqList_iff : ∀ a b : List PyVal, PyVal.beqList a b = true ↔ a = b
  | [], b => by cases b <;> simp [PyVal.beqList]
  | x :: xs, b => by
      cases b with
      | nil => simp [PyVal.beqList]
      | cons y ys =>
          simp [PyVal.beqList, Bool.and_eq_true, PyVal.beq_iff x y,
                PyVal.beqList_iff xs ys]
end

instance : DecidableEq PyVal := fun a b => decidable_of_iff _ (PyVal.beq_iff a b)

instance : LawfulBEq PyVal where
  eq_of_beq h := (PyVal.beq_iff _ _).mp h
  rfl := (PyVal.beq_iff _ _).mpr rfl

/-! ## `BaseClient._extract_rpc_result` -/

/-- The conversion from a decoded JSON fragment back to a Python value. -/
def pyOfJval : Jval → PyVal
  | .null => .none
  | .jstr s => .pstr s
  | .jarr xs => .plist (pyOfJvalList xs)
where
  /-- Elementwise conversion. -/
  pyOfJvalList : List Jval → List PyVal
    | [] => []
    | v :: vs => pyOfJval v :: pyOfJvalList vs

/-- The payload slot of a matching chunk: a string payload is re-parsed as
JSON (`json.loads`), falling back to the raw string when that fails; any
other value is returned as is. -/
def decodePayload (v : PyVal) : PyVal :=
  match v with
  | .pstr s =>
      match loads s with
      | some j => pyOfJval j
      | none => .pstr s
  | v => v

/-- Does an item match the requesting rpc id: a list of length at least 3
whose first element is the sentinel `"wrb.fr"` and whose second element
equals `rpc_id`. -/
def isRpcMatch (rpcId : PyStr) (xs : List PyVal) : Bool :=
  3 ≤ xs.length && xs.getD 0 .none == .pstr "wrb.fr".toList
    && xs.getD 1 .none == .pstr rpcId

/-- The in-band error signature on a matching item:
`["wrb.fr", rpc_id, null, null, null, [16], "generic"]`, i.e. length above
7, `"generic"` at index 6, and a list containing the integer 16 at index 5. -/
def hasErrorSig16 (xs : List PyVal) : Bool :=
  6 < xs.length && xs.getD 6 .none == .pstr "generic".toList &&
    (match xs.getD 5 .none with
     | .plist l => l.contains (.pint 16)
     | _ => false)

/-- Scan the items of one chunk: the first matching item decides the call
(raise on the error-16 signature, return its decoded payload otherwise);
`Option.none` means "keep scanning". -/
def scanItems (rpcId : PyStr) : List PyVal → Option (Except Unit PyVal)
  | [] => Option.none
  | item :: rest =>
      match item with
      | .plist xs =>
          if isRpcMatch rpcId xs then
            if hasErrorSig16 xs then some (.error ())
            else some (.ok (decodePayload (xs.getD 2 .none)))
          else scanItems rpcId rest
      | _ => scanItems rpcId rest

/-- `BaseClient._extract_rpc_result(parsed_response, rpc_id)`: scan the
chunks for the first item matching the rpc id; raise
`AuthenticationError` (modelled as `.error ()`) on the error-16
signature, return the decoded payload otherwise, and return `None` when
no chunk matches. -/
def extractRpcResult (parsed : List PyVal) (rpcId : PyStr) : Except Unit PyVal :=
  match parsed with
  | [] => .ok .none
  | chunk :: rest =>
      match chunk with
      | .plist items =>
          match scanItems rpcId items with
          | some r => r
          | Option.none => extractRpcResult rest rpcId
      | _ => extractRpcResult rest rpcId

/-- The items a chunk contributes to the scan (a non-list chunk none). -/
def pyItems : PyVal → List PyVal
  | .plist xs => xs
  | _ => []

/-- Does an item (as scanned, i.e. as a list) match the rpc id. -/
def itemMatches (rpcId : PyStr) (item : PyVal) : Bool :=
  match item with
  | .plist xs => isRpcMatch rpcId xs
  | _ => false

/-- Does an item carry the error-16 signature. -/
def itemSig16 (item : PyVal) : Bool :=
  match item with
  | .plist xs => hasErrorSig16 xs
  | _ => false

/-- Written from the claim's wording, for comparison: the response
"contains the error-16 signature for `rpc_id`" when some chunk holds a
matching item carrying the signature. -/
def containsErrorSig16 (parsed : List PyVal) (rpcId : PyStr) : Bool :=
  parsed.any fun chunk =>
    (pyItems chunk).any fun item => itemMatches rpcId item && itemSig16 item

/-- A response carrying, for rpc id `"rpc"`, first a benign matching item
and after it one with the error-16 signature. -/
def sigAfterCleanResponse : List PyVal :=
  [.plist [.plist [.pstr "wrb.fr".toList, .pstr "rpc".toList, .none],
           .plist [.pstr "wrb.fr".toList, .pstr "rpc".toList, .none, .none, .none,
                   .plist [.pint 16], .pstr "generic".toList]]]

/-! ## `DownloadMixin._extract_cell_text` -/

mutual
/-- `DownloadMixin._extract_cell_text(cell, _depth)`: depth-capped (100
levels) recursive text extraction from a data-table cell.  `None` and
numeric position markers (bools are `int` instances in Python) contribute
nothing, strings are stripped, and a list joins its children's non-empty
texts with single spaces. -/
def extractCellText (cell : PyVal) (depth : Nat) : PyStr :=
  if depth > 100 then []
  else
    match cell with
    | .none => []
    | .pstr s => pyStrip s
    | .pbool _ => []
    | .pint _ => []
    | .pfloat _ => []
    | .plist xs => joinSpace (extractCellParts xs depth)
/-- The `parts` list of the list case: children's texts, empty ones
dropped (`if text: parts.append(text)`). -/
def extractCellParts (xs : List PyVal) (depth : Nat) : List PyStr :=
  match xs with
  | [] => []
  | x :: rest =>
      let t := extractCellText x (depth + 1)
      if t = [] then extractCellParts rest depth
      else t :: extractCellParts rest depth
end

/-- Written from the claim's wording, for comparison: the string leaves
encountered in a cell within the depth cap, in order. -/
def cellStringLeaves (cell : PyVal) (depth : Nat) : List PyStr :=
  if depth > 100 then []
  else
    match cell with
    | .pstr s => [s]
    | .plist xs => cellStringLeavesList xs depth
    | _ => []
where
  /-- Leaves of a list of cells. -/
  cellStringLeavesList (xs : List PyVal) (depth : Nat) : List PyStr :=
    match xs with
    | [] => []
    | x :: rest => cellStringLeaves x (depth + 1) ++ cellStringLeavesList rest depth

/-- The stripped non-empty string leaves within the depth cap: the
characterization the amended claim uses. -/
def cellTextFragments (cell : PyVal) (depth : Nat) : List PyStr :=
  if depth > 100 then []
  else
    match cell with
    | .pstr s => if pyStrip s = [] then [] else [pyStrip s]
    | .plist xs => cellTextFragmentsList xs depth
    | _ => []
where
  /-- Fragments of a list of cells. -/
  cellTextFragmentsList (xs : List PyVal) (depth : Nat) : List PyStr :=
    match xs with
    | [] => []
    | x :: rest => cellTextFragments x (depth + 1) ++ cellTextFragmentsList rest depth

/-- A cell whose extracted text differs from the plain concatenation of
its string leaves (stripping and the space separator both show). -/
def mixedCell : PyVal := .plist [.pstr "  ab  ".toList, .pstr "cd".toList]

/-! ## `DownloadMixin._parse_data_table` -/

/-- The pad-or-truncate step applied to a data row whose extracted cell
count disagrees with the header count. -/
def fitRow (h : Nat) (vs : List PyStr) : List PyStr :=
  if vs.length < h then vs ++ List.replicate (h - vs.length) []
  else vs.take h

/-- Structure navigation of `_parse_data_table`: each step checks shape
and raises a dedicated `ArtifactParseError("data_table", ...)` message;
the rows array lives at `raw_data[0][0][0][0][4][2]`. -/
def navDataTable (raw : PyVal) : Except String (List PyVal) :=
  match raw with
  | .plist (layer1 :: _) =>
      match layer1 with
      | .plist (layer2 :: _) =>
          match layer2 with
          | .plist (layer3 :: _) =>
              match layer3 with
              | .plist (layer4 :: _) =>
                  match layer4 with
                  | .plist l4 =>
                      if l4.length < 5 then
                        .error "Invalid structure at raw_data[0][0][0][0]: expected list with at least 5 elements"
                      else
                        match l4.getD 4 .none with
                        | .plist sec =>
                            if sec.length < 3 then
                              .error "Invalid table section at raw_data[0][0][0][0][4]: expected list with at least 3 elements"
                            else
                              match sec.getD 2 .none with
                              | .plist rowsArr =>
                                  if rowsArr = [] then
                                    .error "Empty rows array - data table contains no data"
                                  else .ok rowsArr
                              | _ =>
                                  .error "Invalid rows array at raw_data[0][0][0][0][4][2]: expected list"
                        | _ =>
                            .error "Invalid table section at raw_data[0][0][0][0][4]: expected list with at least 3 elements"
                  | _ =>
                      .error "Invalid structure at raw_data[0][0][0][0]: expected list with at least 5 elements"
              | _ => .error "Invalid structure at raw_data[0][0][0]: expected non-empty list"
          | _ => .error "Invalid structure at raw_data[0][0]: expected non-empty list"
      | _ => .error "Invalid structure at raw_data[0]: expected non-empty list"
  | _ => .error "Invalid raw_data: expected non-empty list at artifact index 18"

/-- The row loop of `_parse_data_table` over the rows array: row `i = 0`
becomes the headers (raising when all its extracted texts are empty),
malformed rows (`row_section` not a list of at least 3 elements with a
list at index 2) are skipped and counted, and each later well-formed row
is padded/truncated to the header count when column validation is on. -/
def dtLoop (validate : Bool) :
    List PyVal → Nat → List PyStr → List (List PyStr) → Nat →
    Except String (List PyStr × List (List PyStr))
  | [], _, headers, rows, _ =>
      if headers = [] then
        .error "Failed to extract headers - first row may be malformed"
      else if rows = [] then
        .error "No data rows extracted (skipped malformed rows)"
      else .ok (headers, rows)
  | rs :: rest, i, headers, rows, skipped =>
      match rs with
      | .plist (_ :: _ :: .plist cells :: _) =>
          let rowValues := cells.map (fun c => extractCellText c 0)
          if i = 0 then
            if rowValues.all (· = []) then
              .error "First row (headers) is empty - table must have column headers"
            else dtLoop validate rest (i + 1) rowValues rows skipped
          else
            let row2 :=
              if validate && rowValues.length != headers.length then
                fitRow headers.length rowValues
              else rowValues
            dtLoop validate rest (i + 1) headers (rows ++ [row2]) skipped
      | _ => dtLoop validate rest (i + 1) headers rows (skipped + 1)

/-- `DownloadMixin._parse_data_table(raw_data, validate_columns)`. -/
def parseDataTable (raw : PyVal) (validate : Bool) :
    Except String (List PyStr × List (List PyStr)) :=
  match navDataTable raw with
  | .error e => .error e
  | .ok rowsArr => dtLoop validate rowsArr 0 [] [] 0

/-- A data-table row record `[start, end, [cells...]]`. -/
def mkTableRow (cells : List PyVal) : PyVal := .plist [.pint 0, .pint 9, .plist cells]

/-- A well-formed raw data table: two headers, then a one-cell row and a
three-cell row. -/
def sampleDataTable : PyVal :=
  .plist [.plist [.plist [.plist [.plist [.none, .none, .none, .none,
    .plist [.pint 1, .pint 0,
      .plist [mkTableRow [.pstr "h1".toList, .pstr "h2".toList],
              mkTableRow [.pstr "a".toList],
              mkTableRow [.pstr "b".toList, .pstr "c".toList, .pstr "d".toList]]]]]]]]

/-! ## `SourcesMixin._register_file_source` response handling -/

/-- The inner `extract_id` of `_register_file_source`: a string is
returned as is, a non-empty list recurses into its first element only,
anything else yields `None`. -/
def extract_id : PyVal → Option PyStr
  | .pstr s => some s
  | .plist (x :: _) => extract_id x
  | _ => Option.none

/-- The SOURCE_ID extraction of `_register_file_source` applied to the
decoded RPC result: requires a truthy list result, runs `extract_id`, and
raises `FileUploadError` (modelled as `.error ()`) unless a truthy
(non-empty) string came back. -/
def registerExtract (result : PyVal) : Except Unit PyStr :=
  match result with
  | .plist xs =>
      if xs = [] then .error ()
      else
        match extract_id (.plist xs) with
        | some s => if s = [] then .error () else .ok s
        | Option.none => .error ()
  | _ => .error ()

mutual
/-- Written from the claim's wording, for comparison: the first string
found by a depth-first traversal of the response structure. -/
def dfsFirstString : PyVal → Option PyStr
  | .pstr s => some s
  | .plist xs => dfsFirstStringList xs
  | _ => Option.none
/-- Depth-first search over a list of values. -/
def dfsFirstStringList : List PyVal → Option PyStr
  | [] => Option.none
  | x :: rest =>
      match dfsFirstString x with
      | some s => some s
      | Option.none => dfsFirstStringList rest
end

/-- First element of a Python list value, if any. -/
def firstElem : PyVal → Option PyVal
  | .plist (x :: _) => some x
  | _ => Option.none

/-- `k`-fold descent into first elements. -/
def iterFirst : Nat → PyVal → Option PyVal
  | 0, v => some v
  | k + 1, v =>
      match firstElem v with
      | some w => iterFirst k w
      | Option.none => Option.none

/-! ## `retry.py`: `is_retryable_error`, `execute_with_retry`,
`retry_on_server_error`

A wrapped callable is modelled as a map from the invocation's attempt
number to its outcome: a value, an `httpx.HTTPStatusError` with a status
code, or any other exception (connection error, timeout, ...). -/

/-- Outcome of invoking the wrapped callable once. -/
inductive CallOutcome where
  | success (v : Nat)
  | httpStatus (code : Nat)
  | failure (e : Nat)
  deriving DecidableEq, Repr

/-- `RETRYABLE_STATUS_CODES = {429, 500, 502, 503, 504}`. -/
def RETRYABLE_STATUS_CODES : List Nat := [429, 500, 502, 503, 504]

/-- `is_retryable_error(exc)`: an `httpx.HTTPStatusError` whose response
status is in the retryable set; every other exception is not retryable. -/
def isRetryableError : CallOutcome → Bool
  | .httpStatus c => RETRYABLE_STATUS_CODES.contains c
  | _ => false

/-- What a retry-wrapped execution raises. -/
inductive RetryRaise where
  | http (code : Nat)
  | exc (e : Nat)
  deriving DecidableEq, Repr

/-- Result of a retry-wrapped execution: the returned value or the raised
exception, the number of invocations made, and the backoff sleeps
performed (in order). -/
structure RetryTrace where
  outcome : Except RetryRaise Nat
  invocations : Nat
  sleeps : List ℚ
  deriving Repr

/-- `delay = min(base_delay * 2 ** attempt, max_delay)`. -/
def backoffDelay (baseDelay maxDelay : ℚ) (attempt : Nat) : ℚ :=
  min (baseDelay * 2 ^ attempt) maxDelay

/-- The `for attempt in range(max_retries + 1)` loop of
`execute_with_retry`: return on success; propagate non-`HTTPStatusError`
exceptions uncaught; re-raise a non-retryable status or the last attempt's
error; otherwise sleep the backoff delay and continue.  The `[]` case is
the function-final `raise last_exception` (unreachable from the entry). -/
def retryLoop (calls : Nat → CallOutcome) (maxRetries : Nat)
    (baseDelay maxDelay : ℚ) (lastExc : Option RetryRaise) :
    List Nat → RetryTrace
  | [] => ⟨.error (lastExc.getD (.exc 0)), 0, []⟩
  | attempt :: restAttempts =>
      match calls attempt with
      | .success v => ⟨.ok v, 1, []⟩
      | .failure e => ⟨.error (.exc e), 1, []⟩
      | .httpStatus c =>
          if ¬ RETRYABLE_STATUS_CODES.contains c = true ∨ attempt = maxRetries then
            ⟨.error (.http c), 1, []⟩
          else
            let r := retryLoop calls maxRetries baseDelay maxDelay
                       (some (.http c)) restAttempts
            ⟨r.outcome, r.invocations + 1,
             backoffDelay baseDelay maxDelay attempt :: r.sleeps⟩

/-- `execute_with_retry(func, ..., max_retries, base_delay, max_delay)`. -/
def executeWithRetry (calls : Nat → CallOutcome) (maxRetries : Nat)
    (baseDelay maxDelay : ℚ) : RetryTrace :=
  retryLoop calls maxRetries baseDelay maxDelay Option.none
    (List.range (maxRetries + 1))

/-- The loop body of the `retry_on_server_error` decorator's `wrapper`,
textually the same algorithm as `execute_with_retry`. -/
def serverRetryWrapperLoop (calls : Nat → CallOutcome) (maxRetries : Nat)
    (baseDelay maxDelay : ℚ) (lastExc : Option RetryRaise) :
    List Nat → RetryTrace
  | [] => ⟨.error (lastExc.getD (.exc 0)), 0, []⟩
  | attempt :: restAttempts =>
      match calls attempt with
      | .success v => ⟨.ok v, 1, []⟩
      | .failure e => ⟨.error (.exc e), 1, []⟩
      | .httpStatus c =>
          if ¬ RETRYABLE_STATUS_CODES.contains c = true ∨ attempt = maxRetries then
            ⟨.error (.http c), 1, []⟩
          else
            let r := serverRetryWrapperLoop calls maxRetries baseDelay maxDelay
                       (some (.http c)) restAttempts
            ⟨r.outcome, r.invocations + 1,
             backoffDelay baseDelay maxDelay attempt :: r.sleeps⟩

/-- `retry_on_server_error(...)(func)(...)`: one call of the decorated
function. -/
def retryOnServerError (maxRetries : Nat) (baseDelay maxDelay : ℚ)
    (calls : Nat → CallOutcome) : RetryTrace :=
  serverRetryWrapperLoop calls maxRetries baseDelay maxDelay Option.none
    (List.range (maxRetries + 1))

/-! ## `BaseClient._call_rpc` auth recovery

The network is an oracle mapping the index of each HTTP POST performed by
the originating call (in order) to its outcome; `refreshOk` is whether
`_refresh_auth_tokens()` succeeds (it raises `ValueError` otherwise) and
`reloadOk` is what `_try_reload_or_headless_auth()` returns.  The source's
`DEFAULT_MAX_RETRIES` comes from `retry.py` and equals 3. -/

/-- Outcome of one batchexecute POST inside `_call_rpc`: a decoded result,
an HTTP status error, or the in-band error-16 `AuthenticationError` from
`_extract_rpc_result`. -/
inductive RpcNetOutcome where
  | ok (v : Nat)
  | http (status : Nat)
  | err16
  deriving DecidableEq, Repr

/-- `DEFAULT_MAX_RETRIES` of `retry.py`. -/
def DEFAULT_MAX_RETRIES : Nat := 3

/-- The message of the terminal `AuthenticationError` of `_call_rpc`. -/
def terminalAuthMsg : String :=
  "Authentication expired. Run 'nlm login' in your terminal to re-authenticate."

/-- What `_call_rpc` raises. -/
inductive CallRpcRaise where
  | http (status : Nat)
  | auth (msg : String)
  deriving DecidableEq, Repr

/-- Result of a `_call_rpc` call tree: its outcome, the number of network
POSTs performed, and how often recovery layer 1 (`_refresh_auth_tokens`)
and layers 2-3 (`_try_reload_or_headless_auth`) were attempted. -/
structure CallRpcTrace where
  outcome : Except CallRpcRaise Nat
  netCalls : Nat
  refreshCalls : Nat
  reloadCalls : Nat
  deriving Repr

mutual
/-- `_call_rpc(rpc_id, params, ..., _retry, _deep_retry, _server_retry)`.
Retryable statuses recurse with `_server_retry + 1` while below
`DEFAULT_MAX_RETRIES`; 401/403 and error-16 fall through to the auth
recovery block `authRecover`: layer 1 runs once when `_retry` is unset
and on success retries with `_retry=True`; on its `ValueError`, or when
`_retry` is already set, layers 2-3 run once when `_deep_retry` is unset
and on success retry with both flags set; otherwise the terminal
`AuthenticationError` is raised. -/
def callRpcAux (net : Nat → RpcNetOutcome) (refreshOk reloadOk : Bool)
    (isRetry isDeepRetry : Bool) (serverRetry k : Nat) : CallRpcTrace :=
  match net k with
  | .ok v => ⟨.ok v, 1, 0, 0⟩
  | .http s =>
      if RETRYABLE_STATUS_CODES.contains s = true then
        if serverRetry < DEFAULT_MAX_RETRIES then
          let r := callRpcAux net refreshOk reloadOk isRetry isDeepRetry
                     (serverRetry + 1) (k + 1)
          ⟨r.outcome, r.netCalls + 1, r.refreshCalls, r.reloadCalls⟩
        else ⟨.error (.http s), 1, 0, 0⟩
      else if s = 401 ∨ s = 403 then
        authRecover net refreshOk reloadOk isRetry isDeepRetry k
      else ⟨.error (.http s), 1, 0, 0⟩
  | .err16 => authRecover net refreshOk reloadOk isRetry isDeepRetry k
termination_by
  (cond isRetry 0 16) + (cond isDeepRetry 0 8) +
    (DEFAULT_MAX_RETRIES - serverRetry) + 1
decreasing_by all_goals (simp_all [DEFAULT_MAX_RETRIES]; omega)
/-- The fall-through recovery block at the end of `_call_rpc`, reached on
an HTTP 401/403 or the in-band error 16.  The returned trace includes the
failing frame's own POST. -/
def authRecover (net : Nat → RpcNetOutcome) (refreshOk reloadOk : Bool)
    (isRetry isDeepRetry : Bool) (k : Nat) : CallRpcTrace :=
  if isRetry = false then
    if refreshOk then
      let r := callRpcAux net refreshOk reloadOk true false 0 (k + 1)
      ⟨r.outcome, r.netCalls + 1, r.refreshCalls + 1, r.reloadCalls⟩
    else if isDeepRetry = false then
      if reloadOk then
        let r := callRpcAux net refreshOk reloadOk true true 0 (k + 1)
        ⟨r.outcome, r.netCalls + 1, r.refreshCalls + 1, r.reloadCalls + 1⟩
      else ⟨.error (.auth terminalAuthMsg), 1, 1, 1⟩
    else ⟨.error (.auth terminalAuthMsg), 1, 1, 0⟩
  else if isDeepRetry = false then
    if reloadOk then
      let r := callRpcAux net refreshOk reloadOk true true 0 (k + 1)
      ⟨r.outcome, r.netCalls + 1, r.refreshCalls, r.reloadCalls + 1⟩
    else ⟨.error (.auth terminalAuthMsg), 1, 0, 1⟩
  else ⟨.error (.auth terminalAuthMsg), 1, 0, 0⟩
termination_by (cond isRetry 0 16) + (cond isDeepRetry 0 8)
decreasing_by all_goals simp_all [DEFAULT_MAX_RETRIES] <;> omega
end

/-- An originating `_call_rpc` call (`_retry=False`, `_deep_retry=False`,
`_server_retry=0`). -/
def callRpc (net : Nat → RpcNetOutcome) (refreshOk reloadOk : Bool) : CallRpcTrace :=
  callRpcAux net refreshOk reloadOk false false 0 0

/-- An authentication-failure outcome of one POST: HTTP 401/403 or the
in-band error 16. -/
def isAuthFailOutcome : RpcNetOutcome → Bool
  | .err16 => true
  | .http s => s == 401 || s == 403
  | .ok _ => false

/-! ## `SourcesMixin.add_file` validation ordering -/

/-- The facts `add_file` checks about the input path. -/
structure FileInfo where
  present : Bool
  regular : Bool
  size : Nat
  suffix : PyStr

/-- The three network operations of the resumable upload protocol, in
order. -/
inductive UploadStep where
  | registerSourceRpc
  | startUploadSessionPost
  | streamUploadPost
  deriving DecidableEq, Repr

/-- What `add_file` raises. -/
inductive AddFileRaise where
  | fileValidation (msg : String)
  | fileUpload
  deriving DecidableEq, Repr

/-- The allow-list of `add_file`. -/
def supportedExtensions : List PyStr :=
  [".pdf".toList, ".txt".toList, ".md".toList, ".docx".toList, ".csv".toList,
   ".mp3".toList, ".mp4".toList, ".jpg".toList, ".jpeg".toList, ".png".toList]

/-- `SourcesMixin.add_file(notebook_id, file_path)` up to the upload steps:
validations run first (existence, regular file, non-zero size, lowercased
suffix in the allow-list); then the three HTTP operations are performed in
order, each aborting the rest on failure.  The second component records
the network calls issued, in order. -/
def addFile (f : FileInfo) (regOk startOk uploadOk : Bool) :
    Except AddFileRaise Unit × List UploadStep :=
  if f.present = false then (.error (.fileValidation "File not found"), [])
  else if f.regular = false then (.error (.fileValidation "Not a regular file"), [])
  else if f.size = 0 then (.error (.fileValidation "File is empty"), [])
  else if ¬ supportedExtensions.contains (pyLower f.suffix) then
    (.error (.fileValidation "Unsupported file type"), [])
  else if regOk = false then (.error .fileUpload, [.registerSourceRpc])
  else if startOk = false then
    (.error .fileUpload, [.registerSourceRpc, .startUploadSessionPost])
  else if uploadOk = false then
    (.error .fileUpload,
     [.registerSourceRpc, .startUploadSessionPost, .streamUploadPost])
  else (.ok (), [.registerSourceRpc, .startUploadSessionPost, .streamUploadPost])

/-! ## `DownloadMixin._download_url`

The streaming download is modelled over an abstract response (status
check outcome, content type, the chunk sequence the server would deliver,
and an optional mid-transfer exception raised when chunk `n` is requested
with `n` below the chunk count) and a two-path file system state (the
`<dest>.tmp` sibling and the destination).  Progress callbacks do not
affect control flow and are not modelled. -/

/-- Which kind of exception interrupts the stream mid-transfer. -/
inductive StreamExcKind where
  | httpxError
  | otherError
  deriving DecidableEq, Repr

/-- What the body of `_download_url`'s `try` block raises. -/
inductive DlInnerRaise where
  | httpStatus
  | authRedirect
  | streamFail (kind : StreamExcKind)
  deriving DecidableEq, Repr

/-- What `_download_url` raises: both `except` handlers re-raise as
`ArtifactDownloadError` (wrapping the original exception as the cause). -/
inductive DlRaise where
  | artifactDownload (cause : DlInnerRaise)
  deriving DecidableEq, Repr

/-- The streaming HTTP response, abstractly. -/
structure DlResponse where
  statusError : Bool
  contentType : PyStr
  chunks : List PyStr
  failAfter : Option (Nat × StreamExcKind)

/-- Contents of the temp and destination paths. -/
structure FileSys where
  temp : Option PyStr
  final : Option PyStr
  deriving DecidableEq, Repr

/-- The mid-transfer exception, when it actually interrupts the iteration
(an exception index at or past the chunk count never fires: iteration
ends first). -/
def streamFails (resp : DlResponse) : Option (Nat × StreamExcKind) :=
  match resp.failAfter with
  | some (n, k) => if n < resp.chunks.length then some (n, k) else Option.none
  | Option.none => Option.none

/-- Python's `needle in hay` check: does `hay` start with `needle`. -/
def listStartsWith : PyStr → PyStr → Bool
  | _, [] => true
  | [], _ :: _ => false
  | c :: cs, d :: ds => c == d && listStartsWith cs ds

/-- Python's `needle in hay` substring check. -/
def strContains : PyStr → PyStr → Bool
  | [], needle => needle.isEmpty
  | c :: rest, needle => listStartsWith (c :: rest) needle || strContains rest needle

/-- The login-page sniff on the first chunk of an HTML response. -/
def loginMarker (chunk : PyStr) : Bool :=
  strContains (pyLower chunk) "<!doctype html>".toList ||
  strContains (pyLower chunk) "sign in".toList

/-- The `try` body of `_download_url`: check status; on an HTML content
type read the first chunk and raise `AuthenticationError` on a login
marker before creating the temp file, else write it and stream the rest;
on binary content stream all chunks to the temp file.  Returns the full
content on success; the file system reflects any partial temp write. -/
def downloadUrlInner (resp : DlResponse) (fs : FileSys) :
    Except DlInnerRaise PyStr × FileSys :=
  if resp.statusError then (.error .httpStatus, fs)
  else if strContains (pyLower resp.contentType) "text/html".toList then
    match streamFails resp with
    | some (0, k) => (.error (.streamFail k), fs)
    | some (Nat.succ n, k) =>
        if loginMarker (resp.chunks.headD []) then (.error .authRedirect, fs)
        else (.error (.streamFail k),
              { fs with temp := some (resp.chunks.take (n + 1)).flatten })
    | Option.none =>
        if loginMarker (resp.chunks.headD []) then (.error .authRedirect, fs)
        else (.ok resp.chunks.flatten, { fs with temp := some resp.chunks.flatten })
  else
    match streamFails resp with
    | some (n, k) =>
        (.error (.streamFail k), { fs with temp := some (resp.chunks.take n).flatten })
    | Option.none =>
        (.ok resp.chunks.flatten, { fs with temp := some resp.chunks.flatten })

/-- `DownloadMixin._download_url(url, output_path)`: on success the temp
file is renamed onto the destination; on any exception the temp file is
deleted and the failure is re-raised as `ArtifactDownloadError` (the
`AuthenticationError` of the login sniff included, since the blanket
`except Exception` handler wraps it too). -/
def downloadUrl (resp : DlResponse) (fs : FileSys) :
    Except DlRaise Unit × FileSys :=
  match downloadUrlInner resp fs with
  | (.ok _, fs1) => (.ok (), { temp := Option.none, final := fs1.temp })
  | (.error e, fs1) =>
      (.error (.artifactDownload e), { fs1 with temp := Option.none })

/-- A response that is a login-page redirect: HTML content type whose
first chunk carries the login markers. -/
def loginRedirectResponse : DlResponse :=
  ⟨false, "text/html; charset=utf-8".toList,
   ["<!DOCTYPE html><p>Sign in</p>".toList], Option.none⟩

/-! # Theorems -/

/-! ## C2: request-body encoding round-trip

The chain below proves that `json.loads` inverts the modelled `json.dumps`
on the envelope fragment, that `urllib.parse.unquote` inverts
`urllib.parse.quote` with an empty safe set on ASCII payloads, and finally
the C2 body-shape and round-trip claim about `_build_request_body`. -/

theorem hexVal_hexLower (n : Nat) (h : n < 16) : hexVal (hexLower n) = some n := by
  interval_cases n <;> decide

theorem hexVal_hexUpper (n : Nat) (h : n < 16) : hexVal (hexUpper n) = some n := by
  interval_cases n <;> decide

theorem hex4_hex4L (n : Nat) (h : n < 0x10000) :
    hex4 (hexLower (n / 4096 % 16)) (hexLower (n / 256 % 16))
      (hexLower (n / 16 % 16)) (hexLower (n % 16)) = some n := by
  rw [hex4, hexVal_hexLower _ (by omega), hexVal_hexLower _ (by omega),
    hexVal_hexLower _ (by omega), hexVal_hexLower _ (by omega)]
  simp only [Option.some.injEq]
  omega

theorem char_valid (c : Char) :
    c.toNat < 0xd800 ∨ (0xdfff < c.toNat ∧ c.toNat < 0x110000) := c.valid

theorem parseStrAux_quote (acc rest : List Char) :
    parseStrAux acc ('"' :: rest) = some (acc.reverse, rest) := by
  rw [parseStrAux.eq_def]; rfl

theorem parseStrAux_u (acc : List Char) (a b c d : Char) (rest : List Char) :
    parseStrAux acc ('\\' :: 'u' :: a :: b :: c :: d :: rest) =
      match hex4 a b c d with
      | some n =>
          if 0xd800 ≤ n ∧ n ≤ 0xdbff then
            parseStrAux ((surrogateStep n rest).1 :: acc) (surrogateStep n rest).2
          else parseStrAux (Char.ofNat n :: acc) rest
      | none => none := by
  rw [parseStrAux.eq_def]; rfl

theorem parseStrAux_other (c : Char) (acc rest : List Char)
    (h1 : ¬ c = '"') (h2 : ¬ c = '\\') :
    parseStrAux acc (c :: rest) = parseStrAux (c :: acc) rest := by
  rw [parseStrAux.eq_def]
  split
  · rename_i heq; rw [List.cons.injEq] at heq; exact absurd heq.1 h1
  · rename_i heq; rw [List.cons.injEq] at heq; exact absurd heq.1 h2
  · rename_i heq; rw [List.cons.injEq] at heq; exact absurd heq.1 h2
  · rename_i heq; rw [List.cons.injEq] at heq
    rw [heq.1.symm] at *; rw [heq.2.symm] at *
  · rename_i heq; exact absurd heq (List.cons_ne_nil c rest)

theorem parseStrAux_u_plain (acc : List Char) (a b c d : Char) (rest : List Char)
    (n : Nat) (hh : hex4 a b c d = some n) (hns : ¬ (0xd800 ≤ n ∧ n ≤ 0xdbff)) :
    parseStrAux acc ('\\' :: 'u' :: a :: b :: c :: d :: rest) =
      parseStrAux (Char.ofNat n :: acc) rest := by
  rw [parseStrAux_u, hh]
  simp only [hns, if_false]

theorem parseStrAux_u_surr (acc : List Char) (a b c d : Char) (rest : List Char)
    (n : Nat) (hh : hex4 a b c d = some n) (hs : 0xd800 ≤ n ∧ n ≤ 0xdbff) :
    parseStrAux acc ('\\' :: 'u' :: a :: b :: c :: d :: rest) =
      parseStrAux ((surrogateStep n rest).1 :: acc) (surrogateStep n rest).2 := by
  rw [parseStrAux_u, hh]
  simp only [hs, and_self, if_true]

theorem surrogateStep_eq (n : Nat) (a b c d : Char) (rest2 : List Char) :
    surrogateStep n ('\\' :: 'u' :: a :: b :: c :: d :: rest2) =
      match hex4 a b c d with
      | some m =>
          if 0xdc00 ≤ m ∧ m ≤ 0xdfff then
            (Char.ofNat (0x10000 + (n - 0xd800) * 0x400 + (m - 0xdc00)), rest2)
          else (Char.ofNat n, '\\' :: 'u' :: a :: b :: c :: d :: rest2)
      | none => (Char.ofNat n, '\\' :: 'u' :: a :: b :: c :: d :: rest2) := by
  rw [surrogateStep.eq_def]; rfl

theorem surrogateStep_merge (n m : Nat) (rest2 : List Char) (hm : m < 0x10000)
    (hlo1 : 0xdc00 ≤ m) (hlo2 : m ≤ 0xdfff) :
    surrogateStep n ('\\' :: 'u' :: (hex4L m ++ rest2)) =
      (Char.ofNat (0x10000 + (n - 0xd800) * 0x400 + (m - 0xdc00)), rest2) := by
  rw [hex4L]
  simp only [List.cons_append, List.nil_append]
  rw [surrogateStep_eq, hex4_hex4L m hm]
  simp only [hlo1, hlo2, and_self, if_true]

set_option maxHeartbeats 2000000 in
theorem parseStrAux_escapeChar (c : Char) (acc tail : List Char) :
    parseStrAux acc (escapeChar c ++ tail) = parseStrAux (c :: acc) tail := by
  have hv := char_valid c
  rw [escapeChar]
  split_ifs with h1 h2 h3 h4 h5 h6 h7 h8 h9 h10
  · subst h1; simp only [List.cons_append, List.nil_append]; rw [parseStrAux.eq_def]; rfl
  · subst h2; simp only [List.cons_append, List.nil_append]; rw [parseStrAux.eq_def]; rfl
  · subst h3; simp only [List.cons_append, List.nil_append]; rw [parseStrAux.eq_def]; rfl
  · subst h4; simp only [List.cons_append, List.nil_append]; rw [parseStrAux.eq_def]; rfl
  · subst h5; simp only [List.cons_append, List.nil_append]; rw [parseStrAux.eq_def]; rfl
  · have hc : c = Char.ofNat 8 := by rw [← h6, Char.ofNat_toNat]
    rw [hc]; simp only [List.cons_append, List.nil_append]; rw [parseStrAux.eq_def]; rfl
  · have hc : c = Char.ofNat 12 := by rw [← h7, Char.ofNat_toNat]
    rw [hc]; simp only [List.cons_append, List.nil_append]; rw [parseStrAux.eq_def]; rfl
  · rw [hex4L]
    simp only [List.cons_append, List.nil_append]
    have hh := hex4_hex4L c.toNat (by omega)
    rw [parseStrAux_u_plain _ _ _ _ _ _ _ hh (by omega), Char.ofNat_toNat]
  · rw [List.cons_append, List.nil_append]
    exact parseStrAux_other c acc tail h1 h2
  · rw [hex4L]
    simp only [List.cons_append, List.nil_append]
    have hh := hex4_hex4L c.toNat (by omega)
    have hns : ¬ (0xd800 ≤ c.toNat ∧ c.toNat ≤ 0xdbff) := by
      rcases hv with h | h <;> omega
    rw [parseStrAux_u_plain _ _ _ _ _ _ _ hh hns, Char.ofNat_toNat]
  · have ht1 : 0x10000 ≤ c.toNat := by omega
    have ht2 : c.toNat < 0x110000 := by rcases hv with h | h <;> omega
    rw [hex4L]
    simp only [List.cons_append, List.nil_append, List.append_assoc]
    have hh1 := hex4_hex4L (0xd800 + (c.toNat - 0x10000) / 0x400) (by omega)
    rw [parseStrAux_u_surr _ _ _ _ _ _ _ hh1 ⟨by omega, by omega⟩]
    rw [surrogateStep_merge (0xd800 + (c.toNat - 0x10000) / 0x400)
      (0xdc00 + (c.toNat - 0x10000) % 0x400) tail (by omega) (by omega) (by omega)]
    have harith : 0x10000 +
        (0xd800 + (c.toNat - 0x10000) / 0x400 - 0xd800) * 0x400 +
        (0xdc00 + (c.toNat - 0x10000) % 0x400 - 0xdc00) = c.toNat := by omega
    rw [harith, Char.ofNat_toNat]

theorem parseStrAux_escaped (s : PyStr) (acc rest : List Char) :
    parseStrAux acc (s.flatMap escapeChar ++ '"' :: rest) = some (acc.reverse ++ s, rest) := by
  induction s generalizing acc with
  | nil => simp only [List.flatMap_nil, List.nil_append, parseStrAux_quote, List.append_nil]
  | cons c s ih =>
      rw [List.flatMap_cons, List.append_assoc, parseStrAux_escapeChar, ih]
      simp

theorem skipWs_cons (c : Char) (cs : List Char) (h : isJsonWs c = false) :
    skipWs (c :: cs) = c :: cs := by
  rw [skipWs]
  simp [h]

theorem dumpsVal_length_pos (v : Jval) : 1 ≤ (dumpsVal v).length := by
  cases v with
  | null => simp [dumpsVal]
  | jstr s => simp [dumpsVal, dumpsStr]
  | jarr xs => simp [dumpsVal]

theorem dumpsVal_append_shape (v : Jval) (t : List Char) :
    ∃ c cs, dumpsVal v ++ t = c :: cs ∧ isJsonWs c = false ∧ ¬ c = ']' := by
  cases v with
  | null => exact ⟨'n', 'u' :: 'l' :: 'l' :: t, rfl, by decide, by decide⟩
  | jstr s => exact ⟨'"', (s.flatMap escapeChar ++ ['"']) ++ t, rfl, by decide, by decide⟩
  | jarr xs => exact ⟨'[', (dumpsArr xs ++ [']']) ++ t, rfl, by decide, by decide⟩

theorem parse_dumps (fuel : Nat) :
    (∀ (v : Jval) (rest : List Char), (dumpsVal v).length ≤ fuel →
        parseVal fuel (dumpsVal v ++ rest) = some (v, rest)) ∧
    (∀ (es : List Jval) (rest : List Char), es ≠ [] →
        (dumpsArr es).length + 1 ≤ fuel →
        parseElems fuel (dumpsArr es ++ (']' :: rest)) = some (es, rest)) := by
  induction fuel with
  | zero =>
      refine ⟨fun v rest hlen => ?_, fun es rest hne hlen => ?_⟩
      · have := dumpsVal_length_pos v; omega
      · omega
  | succ fuel ih =>
      obtain ⟨ihP, ihQ⟩ := ih
      refine ⟨fun v rest hlen => ?_, fun es rest hne hlen => ?_⟩
      · cases v with
        | null =>
            have h1 : dumpsVal .null ++ rest = 'n' :: 'u' :: 'l' :: 'l' :: rest := rfl
            rw [h1, parseVal, skipWs_cons _ _ (by decide)]
            rfl
        | jstr s =>
            have h1 : dumpsVal (.jstr s) ++ rest =
                '"' :: (s.flatMap escapeChar ++ '"' :: rest) := by
              rw [show dumpsVal (.jstr s) = '"' :: (s.flatMap escapeChar ++ ['"']) from rfl]
              rw [List.cons_append, List.append_assoc, List.singleton_append]
            rw [h1, parseVal, skipWs_cons _ _ (by decide)]
            simp only [parseStrAux_escaped, List.reverse_nil, List.nil_append]
        | jarr xs =>
            cases xs with
            | nil =>
                have h1 : dumpsVal (.jarr []) ++ rest = '[' :: (']' :: rest) := rfl
                rw [h1, parseVal, skipWs_cons _ _ (by decide)]
                simp only [skipWs_cons ']' rest (by decide)]
            | cons e es =>
                have hlen2 : (dumpsArr (e :: es)).length + 1 ≤ fuel := by
                  rw [show dumpsVal (.jarr (e :: es)) =
                    '[' :: (dumpsArr (e :: es) ++ [']']) from rfl] at hlen
                  simp only [List.length_cons, List.length_append,
                    List.length_singleton] at hlen
                  omega
                obtain ⟨c0, cs0, hshape, hws, hne0⟩ :=
                  dumpsVal_append_shape e (dumpsSep es ++ (']' :: rest))
                have harr : dumpsArr (e :: es) ++ (']' :: rest) = c0 :: cs0 := by
                  rw [show dumpsArr (e :: es) = dumpsVal e ++ dumpsSep es from rfl,
                    List.append_assoc, hshape]
                have h1 : dumpsVal (.jarr (e :: es)) ++ rest = '[' :: (c0 :: cs0) := by
                  rw [show dumpsVal (.jarr (e :: es)) =
                    '[' :: (dumpsArr (e :: es) ++ [']']) from rfl]
                  rw [List.cons_append, List.append_assoc, List.singleton_append, harr]
                rw [h1, parseVal, skipWs_cons _ _ (by decide)]
                simp only [skipWs_cons _ _ hws]
                split
                · rename_i heq
                  rw [List.cons.injEq] at heq
                  exact absurd heq.1 hne0
                · rw [← harr, ihQ (e :: es) rest (by simp) hlen2]
      · cases es with
        | nil => exact absurd rfl hne
        | cons e es2 =>
            have hstart : dumpsArr (e :: es2) ++ (']' :: rest) =
                dumpsVal e ++ (dumpsSep es2 ++ (']' :: rest)) := by
              rw [show dumpsArr (e :: es2) = dumpsVal e ++ dumpsSep es2 from rfl,
                List.append_assoc]
            have hPe : (dumpsVal e).length ≤ fuel := by
              rw [show dumpsArr (e :: es2) = dumpsVal e ++ dumpsSep es2 from rfl] at hlen
              simp only [List.length_append] at hlen
              omega
            cases es2 with
            | nil =>
                rw [hstart]
                rw [show dumpsSep ([] : List Jval) = [] from rfl, List.nil_append]
                rw [parseElems, ihP e (']' :: rest) hPe]
                rfl
            | cons f fs =>
                obtain ⟨c1, cs1, hsh1, hws1, hne1⟩ :=
                  dumpsVal_append_shape f (dumpsSep fs ++ (']' :: rest))
                have hX : dumpsSep (f :: fs) ++ (']' :: rest) = ',' :: (c1 :: cs1) := by
                  rw [show dumpsSep (f :: fs) =
                    ',' :: (dumpsVal f ++ dumpsSep fs) from rfl,
                    List.cons_append, List.append_assoc, hsh1]
                have hQlen : (dumpsArr (f :: fs)).length + 1 ≤ fuel := by
                  rw [show dumpsArr (e :: f :: fs) =
                    dumpsVal e ++ (',' :: (dumpsVal f ++ dumpsSep fs)) from rfl] at hlen
                  have he1 := dumpsVal_length_pos e
                  rw [show dumpsArr (f :: fs) = dumpsVal f ++ dumpsSep fs from rfl]
                  simp only [List.length_append, List.length_cons] at hlen ⊢
                  omega
                rw [hstart, hX, parseElems, ihP e (',' :: (c1 :: cs1)) hPe]
                simp only [skipWs_cons ',' (c1 :: cs1) (by decide)]
                simp only [skipWs_cons _ _ hws1]
                rw [← hsh1, ← List.append_assoc,
                  show dumpsVal f ++ dumpsSep fs = dumpsArr (f :: fs) from rfl]
                rw [ihQ (f :: fs) rest (by simp) hQlen]

theorem loads_dumps (v : Jval) : loads (dumpsVal v) = some v := by
  rw [loads]
  have h := (parse_dumps ((dumpsVal v).length + 1)).1 v [] (by omega)
  rw [List.append_nil] at h
  rw [h]
  rfl

theorem hexLower_lt (n : Nat) (h : n < 16) : (hexLower n).toNat < 128 := by
  interval_cases n <;> decide

theorem escapeChar_ascii (c x : Char) (hx : x ∈ escapeChar c) : x.toNat < 128 := by
  have hhex : ∀ (n : Nat), ∀ y ∈ hex4L n, y.toNat < 128 := by
    intro n y hy
    simp only [hex4L, List.mem_cons, List.not_mem_nil, or_false] at hy
    rcases hy with rfl | rfl | rfl | rfl <;> exact hexLower_lt _ (by omega)
  by_cases h1 : c = '"'
  · rw [escapeChar, if_pos h1] at hx
    simp only [List.mem_cons, List.not_mem_nil, or_false] at hx
    rcases hx with rfl | rfl <;> decide
  by_cases h2 : c = '\\'
  · rw [escapeChar, if_neg h1, if_pos h2] at hx
    simp only [List.mem_cons, List.not_mem_nil, or_false] at hx
    rcases hx with rfl | rfl <;> decide
  by_cases h3 : c = '\n'
  · rw [escapeChar, if_neg h1, if_neg h2, if_pos h3] at hx
    simp only [List.mem_cons, List.not_mem_nil, or_false] at hx
    rcases hx with rfl | rfl <;> decide
  by_cases h4 : c = '\r'
  · rw [escapeChar, if_neg h1, if_neg h2, if_neg h3, if_pos h4] at hx
    simp only [List.mem_cons, List.not_mem_nil, or_false] at hx
    rcases hx with rfl | rfl <;> decide
  by_cases h5 : c = '\t'
  · rw [escapeChar, if_neg h1, if_neg h2, if_neg h3, if_neg h4, if_pos h5] at hx
    simp only [List.mem_cons, List.not_mem_nil, or_false] at hx
    rcases hx with rfl | rfl <;> decide
  by_cases h6 : c.toNat = 8
  · rw [escapeChar, if_neg h1, if_neg h2, if_neg h3, if_neg h4, if_neg h5, if_pos h6] at hx
    simp only [List.mem_cons, List.not_mem_nil, or_false] at hx
    rcases hx with rfl | rfl <;> decide
  by_cases h7 : c.toNat = 12
  · rw [escapeChar, if_neg h1, if_neg h2, if_neg h3, if_neg h4, if_neg h5, if_neg h6,
      if_pos h7] at hx
    simp only [List.mem_cons, List.not_mem_nil, or_false] at hx
    rcases hx with rfl | rfl <;> decide
  by_cases h8 : c.toNat < 0x20
  · rw [escapeChar, if_neg h1, if_neg h2, if_neg h3, if_neg h4, if_neg h5, if_neg h6,
      if_neg h7, if_pos h8] at hx
    rcases List.mem_cons.mp hx with rfl | hx2
    · decide
    rcases List.mem_cons.mp hx2 with rfl | hx3
    · decide
    exact hhex _ x hx3
  by_cases h9 : c.toNat ≤ 0x7e
  · rw [escapeChar, if_neg h1, if_neg h2, if_neg h3, if_neg h4, if_neg h5, if_neg h6,
      if_neg h7, if_neg h8, if_pos h9] at hx
    rw [List.mem_singleton] at hx
    subst hx
    omega
  by_cases h10 : c.toNat < 0x10000
  · rw [escapeChar, if_neg h1, if_neg h2, if_neg h3, if_neg h4, if_neg h5, if_neg h6,
      if_neg h7, if_neg h8, if_neg h9, if_pos h10] at hx
    rcases List.mem_cons.mp hx with rfl | hx2
    · decide
    rcases List.mem_cons.mp hx2 with rfl | hx3
    · decide
    exact hhex _ x hx3
  · rw [escapeChar, if_neg h1, if_neg h2, if_neg h3, if_neg h4, if_neg h5, if_neg h6,
      if_neg h7, if_neg h8, if_neg h9, if_neg h10] at hx
    rcases List.mem_append.mp hx with hx2 | hx2 <;>
      [skip; skip] <;>
      (rcases List.mem_cons.mp hx2 with rfl | hx3
       · decide
       rcases List.mem_cons.mp hx3 with rfl | hx4
       · decide
       exact hhex _ x hx4)

mutual
theorem dumpsVal_ascii : ∀ (v : Jval) (x : Char), x ∈ dumpsVal v → x.toNat < 128
  | .null, x, hx => by
      have hall : ∀ y ∈ (['n', 'u', 'l', 'l'] : List Char), y.toNat < 128 := by decide
      exact hall x hx
  | .jstr s, x, hx => by
      rw [show dumpsVal (.jstr s) = '"' :: (s.flatMap escapeChar ++ ['"']) from rfl] at hx
      rcases List.mem_cons.mp hx with rfl | hx2
      · decide
      · rcases List.mem_append.mp hx2 with hx3 | hx3
        · obtain ⟨c, _, hcc⟩ := List.mem_flatMap.mp hx3
          exact escapeChar_ascii c x hcc
        · rw [List.mem_singleton] at hx3; subst hx3; decide
  | .jarr xs, x, hx => by
      rw [show dumpsVal (.jarr xs) = '[' :: (dumpsArr xs ++ [']']) from rfl] at hx
      rcases List.mem_cons.mp hx with rfl | hx2
      · decide
      · rcases List.mem_append.mp hx2 with hx3 | hx3
        · exact dumpsArr_ascii xs x hx3
        · rw [List.mem_singleton] at hx3; subst hx3; decide
theorem dumpsArr_ascii : ∀ (xs : List Jval) (x : Char), x ∈ dumpsArr xs → x.toNat < 128
  | [], x, hx => absurd hx (by rw [show dumpsArr [] = [] from rfl]; exact List.not_mem_nil x)
  | v :: vs, x, hx => by
      rw [show dumpsArr (v :: vs) = dumpsVal v ++ dumpsSep vs from rfl] at hx
      rcases List.mem_append.mp hx with h | h
      · exact dumpsVal_ascii v x h
      · exact dumpsSep_ascii vs x h
theorem dumpsSep_ascii : ∀ (vs : List Jval) (x : Char), x ∈ dumpsSep vs → x.toNat < 128
  | [], x, hx => absurd hx (by rw [show dumpsSep [] = [] from rfl]; exact List.not_mem_nil x)
  | v :: vs, x, hx => by
      rw [show dumpsSep (v :: vs) = ',' :: (dumpsVal v ++ dumpsSep vs) from rfl] at hx
      rcases List.mem_cons.mp hx with rfl | h
      · decide
      · rcases List.mem_append.mp h with h2 | h2
        · exact dumpsVal_ascii v x h2
        · exact dumpsSep_ascii vs x h2
end

theorem percentDecode_cons (c : Char) (rest : List Char) (h : ¬ c = '%') :
    percentDecode (c :: rest) = c :: percentDecode rest := by
  rw [percentDecode.eq_def]
  split
  · rename_i heq; rw [List.cons.injEq] at heq; exact absurd heq.1 h
  · rename_i heq; rw [List.cons.injEq] at heq; rw [heq.1, heq.2]
  · rename_i heq; exact absurd heq (List.cons_ne_nil _ _)

theorem percentDecode_hex (a b : Char) (rest : List Char) :
    percentDecode ('%' :: a :: b :: rest) =
      match hexVal a, hexVal b with
      | some x, some y => Char.ofNat (x * 16 + y) :: percentDecode rest
      | _, _ => '%' :: percentDecode (a :: b :: rest) := by
  rw [percentDecode.eq_def]; rfl

theorem percentDecode_encodeChar (c : Char) (t : List Char) (h : c.toNat < 256) :
    percentDecode (percentEncodeChar c ++ t) = c :: percentDecode t := by
  rw [percentEncodeChar]
  split_ifs with hs
  · rw [List.cons_append, List.nil_append]
    refine percentDecode_cons c t ?_
    intro hc
    rw [hc] at hs
    exact absurd hs (by decide)
  · simp only [List.cons_append, List.nil_append]
    rw [percentDecode_hex, hexVal_hexUpper _ (by omega), hexVal_hexUpper _ (by omega)]
    show Char.ofNat (c.toNat / 16 % 16 * 16 + c.toNat % 16) :: percentDecode t =
      c :: percentDecode t
    have harith : c.toNat / 16 % 16 * 16 + c.toNat % 16 = c.toNat := by omega
    rw [harith, Char.ofNat_toNat]

theorem percentDecode_encode (s : List Char) (h : ∀ c ∈ s, c.toNat < 256) :
    percentDecode (percentEncode s) = s := by
  induction s with
  | nil => rfl
  | cons c cs ih =>
      rw [percentEncode, List.flatMap_cons, ← percentEncode]
      rw [percentDecode_encodeChar c _ (h c (by simp))]
      rw [ih (fun x hx => h x (by simp [hx]))]

theorem hexUpper_ne (n : Nat) (h : n < 16) : ¬ hexUpper n = '&' ∧ ¬ hexUpper n = '/' := by
  interval_cases n <;> exact ⟨by decide, by decide⟩

theorem percentEncode_no_amp_slash (s : List Char) :
    '&' ∉ percentEncode s ∧ '/' ∉ percentEncode s := by
  induction s with
  | nil => exact ⟨by simp [percentEncode], by simp [percentEncode]⟩
  | cons c cs ih =>
      rw [percentEncode, List.flatMap_cons, ← percentEncode]
      constructor <;> intro hmem <;> rcases List.mem_append.mp hmem with hm | hm
      · rw [percentEncodeChar] at hm
        split_ifs at hm with hs
        · rw [List.mem_singleton] at hm
          rw [← hm] at hs
          exact absurd hs (by decide)
        · simp only [List.mem_cons, List.not_mem_nil, or_false] at hm
          rcases hm with h1 | h1 | h1
          · exact absurd h1 (by decide)
          · exact absurd h1.symm (hexUpper_ne _ (by omega)).1
          · exact absurd h1.symm (hexUpper_ne _ (by omega)).1
      · exact ih.1 hm
      · rw [percentEncodeChar] at hm
        split_ifs at hm with hs
        · rw [List.mem_singleton] at hm
          rw [← hm] at hs
          exact absurd hs (by decide)
        · simp only [List.mem_cons, List.not_mem_nil, or_false] at hm
          rcases hm with h1 | h1 | h1
          · exact absurd h1 (by decide)
          · exact absurd h1.symm (hexUpper_ne _ (by omega)).2
          · exact absurd h1.symm (hexUpper_ne _ (by omega)).2
      · exact ih.2 hm

theorem takeWhile_append_stop (p : Char → Bool) (l r : List Char) (c : Char)
    (hl : ∀ x ∈ l, p x = true) (hc : p c = false) :
    (l ++ c :: r).takeWhile p = l := by
  induction l with
  | nil => simp [List.takeWhile_cons, hc]
  | cons a t ih =>
      rw [List.cons_append, List.takeWhile_cons, hl a (by simp)]
      rw [ih (fun x hx => hl x (by simp [hx]))]
      rfl

/-- C2: URL-decoding the `f.req` field of the body built by
`_build_request_body(rpc_id, params)` and JSON-decoding it recovers exactly
`[[[rpc_id, json(params), null, "generic"]]]` with `json(params)` the compact
serialization of `params`; the body starts with `f.req=`, the encoded payload
is fully percent-encoded (`/` included, and `&` cannot occur in it), an
`&at=<csrf>` part follows when a CSRF token is set, and a trailing `&` ends
the body. -/
theorem buildRequestBody_roundtrip (rpcId : PyStr) (params : Jparam)
    (csrf : Option PyStr) :
    loads (percentDecode
        (((buildRequestBody rpcId params csrf).drop 6).takeWhile (fun c => c != '&'))) =
      some (fReqStructure rpcId params) ∧
    (buildRequestBody rpcId params csrf).take 6 = "f.req=".toList ∧
    buildRequestBody rpcId params csrf =
      "f.req=".toList ++ percentEncode (dumpsVal (fReqStructure rpcId params)) ++
        (match csrf with
         | some t => '&' :: ("at=".toList ++ percentEncode t)
         | none => []) ++ ['&'] ∧
    '/' ∉ percentEncode (dumpsVal (fReqStructure rpcId params)) ∧
    (buildRequestBody rpcId params csrf).getLast? = some '&' := by
  have hJ : ∀ x ∈ percentEncode (dumpsVal (fReqStructure rpcId params)),
      (x != '&') = true := by
    intro x hxm
    have hno := (percentEncode_no_amp_slash (dumpsVal (fReqStructure rpcId params))).1
    simp only [bne_iff_ne, ne_eq]
    intro heq
    rw [heq] at hxm
    exact hno hxm
  have hascii : ∀ x ∈ dumpsVal (fReqStructure rpcId params), x.toNat < 256 := by
    intro x hx
    have := dumpsVal_ascii _ x hx
    omega
  cases csrf with
  | none =>
      have hbody : buildRequestBody rpcId params none =
          "f.req=".toList ++ percentEncode (dumpsVal (fReqStructure rpcId params)) ++
            ['&'] := by
        rw [buildRequestBody]
        simp [List.intercalate]
      refine ⟨?_, ?_, ?_, (percentEncode_no_amp_slash _).2, ?_⟩
      · rw [hbody, List.append_assoc,
          show (6 : Nat) = ("f.req=".toList).length from rfl, List.drop_left]
        rw [takeWhile_append_stop _ _ _ _ hJ (by decide)]
        rw [percentDecode_encode _ hascii, loads_dumps]
      · rw [hbody, List.append_assoc,
          show (6 : Nat) = ("f.req=".toList).length from rfl, List.take_left]
      · rw [hbody]
        simp
      · rw [hbody, List.getLast?_concat]
  | some t =>
      have hbody : buildRequestBody rpcId params (some t) =
          "f.req=".toList ++ percentEncode (dumpsVal (fReqStructure rpcId params)) ++
            ('&' :: ("at=".toList ++ percentEncode t)) ++ ['&'] := by
        rw [buildRequestBody]
        simp [List.intercalate]
      refine ⟨?_, ?_, ?_, (percentEncode_no_amp_slash _).2, ?_⟩
      · rw [hbody, List.append_assoc, List.append_assoc,
          show (6 : Nat) = ("f.req=".toList).length from rfl, List.drop_left]
        rw [List.cons_append]
        rw [takeWhile_append_stop _ _ _ _ hJ (by decide)]
        rw [percentDecode_encode _ hascii, loads_dumps]
      · rw [hbody, List.append_assoc, List.append_assoc,
          show (6 : Nat) = ("f.req=".toList).length from rfl, List.take_left]
      · rw [hbody]
      · rw [hbody, List.getLast?_concat]


/-! ## C7: `add_file` validates before any network call -/

/-- C7: for every input path, `add_file` raises a file-validation error
before any network call whenever the file is missing, not a regular file,
empty, or has an extension outside the allow-list; the three upload HTTP
calls (register RPC, upload-session POST, byte-stream POST) are issued,
in order, only when all validations pass. -/
theorem addFile_validates_before_network (f : FileInfo) (regOk startOk uploadOk : Bool) :
    (¬ (f.present = true ∧ f.regular = true ∧ f.size ≠ 0 ∧
        supportedExtensions.contains (pyLower f.suffix) = true) →
      (∃ m, (addFile f regOk startOk uploadOk).1 = .error (.fileValidation m)) ∧
      (addFile f regOk startOk uploadOk).2 = []) ∧
    ((addFile f regOk startOk uploadOk).2 ≠ [] →
      f.present = true ∧ f.regular = true ∧ f.size ≠ 0 ∧
      supportedExtensions.contains (pyLower f.suffix) = true) ∧
    (f.present = true → f.regular = true → f.size ≠ 0 →
      supportedExtensions.contains (pyLower f.suffix) = true →
      (addFile f regOk startOk uploadOk).2.take 1 = [.registerSourceRpc] ∧
      (regOk = true → startOk = true → uploadOk = true →
        addFile f regOk startOk uploadOk =
          (.ok (), [.registerSourceRpc, .startUploadSessionPost, .streamUploadPost]))) := by
  unfold addFile
  rcases f with ⟨p, r, sz, suf⟩
  cases p <;> cases r <;> cases regOk <;> cases startOk <;> cases uploadOk <;>
    simp <;> by_cases hz : sz = 0 <;>
    by_cases he : supportedExtensions.contains (pyLower suf) = true <;>
    simp_all

/-- Witness for C7 at a concrete file and network behaviour. -/
theorem addFile_validates_before_network_witness :
    (addFile ⟨true, true, 0, ".pdf".toList⟩ true true true).2 = [] ∧
    addFile ⟨true, true, 7, ".PDF".toList⟩ true true true =
      (.ok (), [.registerSourceRpc, .startUploadSessionPost, .streamUploadPost]) := by
  refine ⟨((addFile_validates_before_network ⟨true, true, 0, ".pdf".toList⟩
      true true true).1 (by decide)).2, ?_⟩
  exact (((addFile_validates_before_network ⟨true, true, 7, ".PDF".toList⟩
      true true true).2.2 (by decide) (by decide) (by decide) (by decide)).2
      (by decide) (by decide) (by decide))

/-! ## C3 and C10: the retry policy -/

/-- If the callable fails with retryable statuses on attempts `att ≤ i < N`
and succeeds at attempt `N ≤ maxRetries`, the remaining loop returns the
success value after `N - att + 1` further invocations. -/
theorem retryLoop_success (calls : Nat → CallOutcome) (maxRetries : Nat)
    (b m : ℚ) (N v : Nat)
    (hfail : ∀ i, i < N → isRetryableError (calls i) = true)
    (hsucc : calls N = .success v) (hN : N ≤ maxRetries) :
    ∀ len att lastE, att + len = maxRetries + 1 → att ≤ N →
      (retryLoop calls maxRetries b m lastE (List.range' att len)).outcome = .ok v ∧
      (retryLoop calls maxRetries b m lastE (List.range' att len)).invocations
        = N - att + 1 := by
  intro len
  induction len with
  | zero => intro att lastE hlen hattN; omega
  | succ len ih =>
      intro att lastE hlen hattN
      rw [List.range'_succ]
      by_cases hatt : att = N
      · subst hatt
        simp [retryLoop, hsucc]
      · have hlt : att < N := by omega
        have hr := hfail att hlt
        rcases hc : calls att with v0 | c | e0 <;> rw [hc] at hr <;>
          simp [isRetryableError] at hr
        have hne : ¬ (¬ RETRYABLE_STATUS_CODES.contains c = true ∨ att = maxRetries) := by
          simp [hr]; omega
        have := ih (att + 1) (some (.http c)) (by omega) (by omega)
        simp only [retryLoop, hc, if_neg hne]
        refine ⟨this.1, ?_⟩
        rw [this.2]; omega

/-- If every attempt up to `maxRetries` fails with a retryable status, the
remaining loop raises the status error of the last attempt after
exhausting all remaining invocations. -/
theorem retryLoop_exhaust (calls : Nat → CallOutcome) (maxRetries : Nat)
    (b m : ℚ)
    (hfail : ∀ i, i ≤ maxRetries → isRetryableError (calls i) = true) :
    ∀ len att lastE, att + len = maxRetries + 1 → att ≤ maxRetries →
      (∃ c, calls maxRetries = .httpStatus c ∧
        (retryLoop calls maxRetries b m lastE (List.range' att len)).outcome
          = .error (.http c)) ∧
      (retryLoop calls maxRetries b m lastE (List.range' att len)).invocations = len := by
  intro len
  induction len with
  | zero => intro att lastE hlen hattM; omega
  | succ len ih =>
      intro att lastE hlen hattM
      rw [List.range'_succ]
      have hr := hfail att (by omega)
      rcases hc : calls att with v0 | c | e0 <;> rw [hc] at hr <;>
        simp [isRetryableError] at hr
      by_cases hatt : att = maxRetries
      · subst hatt
        have hlen0 : len = 0 := by omega
        subst hlen0
        refine ⟨⟨c, hc, ?_⟩, ?_⟩ <;> simp [retryLoop, hc, hr]
      · have hne : ¬ (¬ RETRYABLE_STATUS_CODES.contains c = true ∨ att = maxRetries) := by
          simp [hr, hatt]
        have := ih (att + 1) (some (.http c)) (by omega) (by omega)
        simp only [retryLoop, hc, if_neg hne]
        obtain ⟨⟨c2, hc2, hout⟩, hinv⟩ := this
        exact ⟨⟨c2, hc2, hout⟩, by rw [hinv]⟩

/-- C3: with retryable-status failures on the first `N < max_retries`
attempts and success on attempt `N`, `execute_with_retry` returns the
success value after exactly `N + 1` invocations; with retryable failures
on all of the first `max_retries + 1` attempts it raises after exactly
`max_retries + 1` invocations; a non-retryable status on the first
attempt (e.g. 400, 401, 403, 404) is raised immediately after one
invocation with no backoff sleep. -/
theorem executeWithRetry_policy (calls : Nat → CallOutcome) (maxRetries N v : Nat)
    (b m : ℚ) :
    ((∀ i, i < N → isRetryableError (calls i) = true) → calls N = .success v →
      N < maxRetries →
      (executeWithRetry calls maxRetries b m).outcome = .ok v ∧
      (executeWithRetry calls maxRetries b m).invocations = N + 1) ∧
    ((∀ i, i ≤ maxRetries → isRetryableError (calls i) = true) →
      (∃ c, calls maxRetries = .httpStatus c ∧
        (executeWithRetry calls maxRetries b m).outcome = .error (.http c)) ∧
      (executeWithRetry calls maxRetries b m).invocations = maxRetries + 1) ∧
    (∀ c, calls 0 = .httpStatus c → RETRYABLE_STATUS_CODES.contains c = false →
      executeWithRetry calls maxRetries b m = ⟨.error (.http c), 1, []⟩) := by
  refine ⟨?_, ?_, ?_⟩
  · intro hfail hsucc hN
    have := retryLoop_success calls maxRetries b m N v hfail hsucc (by omega)
      (maxRetries + 1) 0 Option.none (by omega) (by omega)
    rw [executeWithRetry, List.range_eq_range']
    exact ⟨this.1, by rw [this.2]; omega⟩
  · intro hfail
    have := retryLoop_exhaust calls maxRetries b m hfail (maxRetries + 1) 0
      Option.none (by omega) (by omega)
    rw [executeWithRetry, List.range_eq_range']
    exact this
  · intro c hc hnr
    rw [executeWithRetry, List.range_eq_range', List.range'_succ]
    simp only [retryLoop, hc]
    rw [if_pos (Or.inl (by rw [hnr]; simp))]

/-- Witness for C3: two 503 failures then success with `max_retries = 3`;
four 500 failures exhausting the budget; one 404 failing immediately. -/
theorem executeWithRetry_policy_witness :
    ((executeWithRetry (fun i => if i < 2 then .httpStatus 503 else .success 7)
        3 1 16).outcome = .ok 7 ∧
      (executeWithRetry (fun i => if i < 2 then .httpStatus 503 else .success 7)
        3 1 16).invocations = 3) ∧
    (executeWithRetry (fun _ => .httpStatus 500) 3 1 16).invocations = 4 ∧
    executeWithRetry (fun _ => .httpStatus 404) 3 1 16 = ⟨.error (.http 404), 1, []⟩ := by
  refine ⟨?_, ?_, ?_⟩
  · exact (executeWithRetry_policy (fun i => if i < 2 then .httpStatus 503 else .success 7)
      3 2 7 1 16).1
      (by intro i hi; interval_cases i <;> decide) (by decide) (by decide)
  · exact ((executeWithRetry_policy (fun _ => .httpStatus 500) 3 0 0 1 16).2.1
      (by intro i hi; decide)).2
  · exact (executeWithRetry_policy (fun _ => .httpStatus 404) 3 0 0 1 16).2.2
      404 (by decide) (by decide)

/-- C10: an exception that is not an `httpx.HTTPStatusError` (connection
error, timeout, ...) is not caught by the retry loop: both
`execute_with_retry` and the `retry_on_server_error` wrapper propagate it
from the first invocation, with no backoff sleep, whatever `max_retries`
is. -/
theorem retry_propagates_non_http_errors (calls : Nat → CallOutcome)
    (maxRetries : Nat) (b m : ℚ) (e : Nat) (h : calls 0 = .failure e) :
    executeWithRetry calls maxRetries b m = ⟨.error (.exc e), 1, []⟩ ∧
    retryOnServerError maxRetries b m calls = ⟨.error (.exc e), 1, []⟩ := by
  rw [executeWithRetry, retryOnServerError, List.range_eq_range', List.range'_succ]
  constructor
  · simp [retryLoop, h]
  · simp [serverRetryWrapperLoop, h]

/-- Witness for C10 at a concrete connection-error callable. -/
theorem retry_propagates_non_http_errors_witness :
    executeWithRetry (fun _ => .failure 5) 3 1 16 = ⟨.error (.exc 5), 1, []⟩ ∧
    retryOnServerError 3 1 16 (fun _ => .failure 5) = ⟨.error (.exc 5), 1, []⟩ :=
  retry_propagates_non_http_errors (fun _ => .failure 5) 3 1 16 5 rfl

/-! ## C8: the SOURCE_ID extraction of `_register_file_source` -/

/-- `extract_id` finds exactly the string reached by repeatedly
descending into first elements. -/
theorem extract_id_iff : ∀ (v : PyVal) (s : PyStr),
    extract_id v = some s ↔ ∃ k, iterFirst k v = some (.pstr s)
  | .pstr s0, s => by
      constructor
      · intro h
        simp only [extract_id, Option.some.injEq] at h
        subst h
        exact ⟨0, rfl⟩
      · rintro ⟨k, hk⟩
        cases k with
        | zero =>
            simp only [iterFirst, Option.some.injEq, PyVal.pstr.injEq] at hk
            simp [extract_id, hk]
        | succ k => simp [iterFirst, firstElem] at hk
  | .plist (x :: rest), s => by
      rw [show extract_id (.plist (x :: rest)) = extract_id x from rfl,
          extract_id_iff x s]
      constructor
      · rintro ⟨k, hk⟩
        exact ⟨k + 1, by simpa [iterFirst, firstElem] using hk⟩
      · rintro ⟨k, hk⟩
        cases k with
        | zero => simp [iterFirst] at hk
        | succ k => exact ⟨k, by simpa [iterFirst, firstElem] using hk⟩
  | .none, s => by
      constructor
      · intro h; simp [extract_id] at h
      · rintro ⟨k, hk⟩
        cases k <;> simp [iterFirst, firstElem] at hk
  | .pbool b, s => by
      constructor
      · intro h; simp [extract_id] at h
      · rintro ⟨k, hk⟩
        cases k <;> simp [iterFirst, firstElem] at hk
  | .pint n, s => by
      constructor
      · intro h; simp [extract_id] at h
      · rintro ⟨k, hk⟩
        cases k <;> simp [iterFirst, firstElem] at hk
  | .pfloat f, s => by
      constructor
      · intro h; simp [extract_id] at h
      · rintro ⟨k, hk⟩
        cases k <;> simp [iterFirst, firstElem] at hk
  | .plist [], s => by
      constructor
      · intro h; simp [extract_id] at h
      · rintro ⟨k, hk⟩
        cases k <;> simp [iterFirst, firstElem] at hk

/-- C8 counterexample: in `[[0, "id"]]` the first string found depth-first
is `"id"`, but `_register_file_source` raises `FileUploadError` (its
traversal only ever descends into first elements, and `[[0, "id"]][0][0]`
is the integer `0`). -/
theorem registerExtract_counterexample :
    dfsFirstString (.plist [.plist [.pint 0, .pstr "id".toList]])
      = some "id".toList ∧
    registerExtract (.plist [.plist [.pint 0, .pstr "id".toList]]) = .error () := by
  constructor <;> rfl

/-- C8 (amended): `_register_file_source` returns `s` exactly when the
decoded result is a non-empty list, repeatedly taking first elements
reaches the string `s`, and `s` is non-empty; in every other case
(including when a string exists elsewhere in the structure, reachable by
depth-first search but not along first elements) it raises the
file-upload error. -/
theorem registerExtract_leftmost_string (result : PyVal) (s : PyStr) :
    registerExtract result = .ok s ↔
      ((∃ x rest, result = .plist (x :: rest)) ∧ s ≠ [] ∧
       ∃ k, iterFirst k result = some (.pstr s)) := by
  cases result with
  | plist xs =>
      cases xs with
      | nil =>
          simp only [registerExtract]
          constructor
          · intro h; simp at h
          · rintro ⟨⟨x, rest, heq⟩, _, _⟩
            simp at heq
      | cons x rest =>
          have hiff := extract_id_iff (.plist (x :: rest)) s
          constructor
          · intro hok
            simp only [registerExtract] at hok
            rw [if_neg (List.cons_ne_nil x rest)] at hok
            cases hex : extract_id (.plist (x :: rest)) with
            | none => rw [hex] at hok; simp at hok
            | some s0 =>
                rw [hex] at hok
                by_cases hs0 : s0 = []
                · simp [hs0] at hok
                · simp only [hs0, if_false] at hok
                  have heq : s0 = s := by simpa using hok
                  subst heq
                  exact ⟨⟨x, rest, rfl⟩, hs0, hiff.mp hex⟩
          · rintro ⟨⟨x0, rest0, heq⟩, hne, hk⟩
            have hex : extract_id (.plist (x :: rest)) = some s := hiff.mpr hk
            simp [registerExtract, hex, hne]
  | none =>
      constructor
      · intro h; simp [registerExtract] at h
      · rintro ⟨⟨x, rest, heq⟩, _, _⟩; simp at heq
  | pbool b =>
      constructor
      · intro h; simp [registerExtract] at h
      · rintro ⟨⟨x, rest, heq⟩, _, _⟩; simp at heq
  | pint n =>
      constructor
      · intro h; simp [registerExtract] at h
      · rintro ⟨⟨x, rest, heq⟩, _, _⟩; simp at heq
  | pfloat f =>
      constructor
      · intro h; simp [registerExtract] at h
      · rintro ⟨⟨x, rest, heq⟩, _, _⟩; simp at heq
  | pstr s0 =>
      constructor
      · intro h; simp [registerExtract] at h
      · rintro ⟨⟨x, rest, heq⟩, _, _⟩; simp at heq

/-! ## C1: the error-16 signature in `_extract_rpc_result` -/

/-- When every matching item of a list of items carries the signature,
scanning them either finds nothing or raises. -/
theorem scanItems_all_sig (rpcId : PyStr) : ∀ items : List PyVal,
    (∀ item ∈ items, itemMatches rpcId item = true → itemSig16 item = true) →
    scanItems rpcId items = Option.none ∨ scanItems rpcId items = some (.error ())
  | [], _ => by simp [scanItems]
  | item :: rest, hall => by
      have hrest := scanItems_all_sig rpcId rest
        (fun i hi hm => hall i (List.mem_cons_of_mem _ hi) hm)
      cases item with
      | plist xs =>
          by_cases hm : isRpcMatch rpcId xs = true
          · have hs : hasErrorSig16 xs = true := by
              simpa [itemMatches, itemSig16, hm] using
                hall (.plist xs) (List.mem_cons_self _ _)
            simp [scanItems, hm, hs]
          · simpa [scanItems, hm] using hrest
      | none => simpa [scanItems] using hrest
      | pbool b => simpa [scanItems] using hrest
      | pint n => simpa [scanItems] using hrest
      | pfloat f => simpa [scanItems] using hrest
      | pstr s => simpa [scanItems] using hrest

/-- When additionally some item matches, the scan raises. -/
theorem scanItems_finds_sig (rpcId : PyStr) : ∀ items : List PyVal,
    (∀ item ∈ items, itemMatches rpcId item = true → itemSig16 item = true) →
    (∃ item ∈ items, itemMatches rpcId item = true) →
    scanItems rpcId items = some (.error ())
  | [], _, hex => by simp at hex
  | item :: rest, hall, hex => by
      cases item with
      | plist xs =>
          by_cases hm : isRpcMatch rpcId xs = true
          · have hs : hasErrorSig16 xs = true := by
              simpa [itemMatches, itemSig16, hm] using
                hall (.plist xs) (List.mem_cons_self _ _)
            simp [scanItems, hm, hs]
          · have hex2 : ∃ i ∈ rest, itemMatches rpcId i = true := by
              rcases hex with ⟨i, hi, hmi⟩
              rcases List.mem_cons.mp hi with rfl | hi2
              · simp [itemMatches, hm] at hmi
              · exact ⟨i, hi2, hmi⟩
            have := scanItems_finds_sig rpcId rest
              (fun i hi hm2 => hall i (List.mem_cons_of_mem _ hi) hm2) hex2
            simpa [scanItems, hm] using this
      | none =>
          have hex2 : ∃ i ∈ rest, itemMatches rpcId i = true := by
            rcases hex with ⟨i, hi, hmi⟩
            rcases List.mem_cons.mp hi with rfl | hi2
            · simp [itemMatches] at hmi
            · exact ⟨i, hi2, hmi⟩
          have := scanItems_finds_sig rpcId rest
            (fun i hi hm2 => hall i (List.mem_cons_of_mem _ hi) hm2) hex2
          simpa [scanItems] using this
      | pbool b =>
          have hex2 : ∃ i ∈ rest, itemMatches rpcId i = true := by
            rcases hex with ⟨i, hi, hmi⟩
            rcases List.mem_cons.mp hi with rfl | hi2
            · simp [itemMatches] at hmi
            · exact ⟨i, hi2, hmi⟩
          have := scanItems_finds_sig rpcId rest
            (fun i hi hm2 => hall i (List.mem_cons_of_mem _ hi) hm2) hex2
          simpa [scanItems] using this
      | pint n =>
          have hex2 : ∃ i ∈ rest, itemMatches rpcId i = true := by
            rcases hex with ⟨i, hi, hmi⟩
            rcases List.mem_cons.mp hi with rfl | hi2
            · simp [itemMatches] at hmi
            · exact ⟨i, hi2, hmi⟩
          have := scanItems_finds_sig rpcId rest
            (fun i hi hm2 => hall i (List.mem_cons_of_mem _ hi) hm2) hex2
          simpa [scanItems] using this
      | pfloat f =>
          have hex2 : ∃ i ∈ rest, itemMatches rpcId i = true := by
            rcases hex with ⟨i, hi, hmi⟩
            rcases List.mem_cons.mp hi with rfl | hi2
            · simp [itemMatches] at hmi
            · exact ⟨i, hi2, hmi⟩
          have := scanItems_finds_sig rpcId rest
            (fun i hi hm2 => hall i (List.mem_cons_of_mem _ hi) hm2) hex2
          simpa [scanItems] using this
      | pstr s =>
          have hex2 : ∃ i ∈ rest, itemMatches rpcId i = true := by
            rcases hex with ⟨i, hi, hmi⟩
            rcases List.mem_cons.mp hi with rfl | hi2
            · simp [itemMatches] at hmi
            · exact ⟨i, hi2, hmi⟩
          have := scanItems_finds_sig rpcId rest
            (fun i hi hm2 => hall i (List.mem_cons_of_mem _ hi) hm2) hex2
          simpa [scanItems] using this

/-- C1 counterexample: a response that carries the error-16 signature for
the requested rpc id, yet `_extract_rpc_result` returns a value (`None`)
instead of raising, because a benign matching chunk precedes the error
chunk and the scan stops at the first match. -/
theorem extractRpcResult_counterexample :
    containsErrorSig16 sigAfterCleanResponse "rpc".toList = true ∧
    extractRpcResult sigAfterCleanResponse "rpc".toList = .ok .none := by
  constructor <;> rfl

/-- C1 (amended): whenever the parsed response contains a matching item
carrying the error-16 signature for the requested rpc id and every
matching item carries the signature (in particular when the error chunk
is the only response for that rpc id), `_extract_rpc_result` raises the
Authentication-Expired error instead of returning a value. -/
theorem extractRpcResult_raises_on_sig : ∀ (parsed : List PyVal) (rpcId : PyStr),
    (∀ chunk ∈ parsed, ∀ item ∈ pyItems chunk,
      itemMatches rpcId item = true → itemSig16 item = true) →
    containsErrorSig16 parsed rpcId = true →
    extractRpcResult parsed rpcId = .error ()
  | [], rpcId, _, hsome => by simp [containsErrorSig16] at hsome
  | chunk :: rest, rpcId, hall, hsome => by
      have hallc := hall chunk (List.mem_cons_self _ _)
      have hallr : ∀ c ∈ rest, ∀ item ∈ pyItems c,
          itemMatches rpcId item = true → itemSig16 item = true :=
        fun c hc => hall c (List.mem_cons_of_mem _ hc)
      rw [containsErrorSig16] at hsome
      simp only [List.any_cons, Bool.or_eq_true] at hsome
      cases chunk with
      | plist items =>
          rcases hsome with hhere | hlater
          · have hex : ∃ item ∈ items, itemMatches rpcId item = true := by
              simp only [List.any_eq_true, Bool.and_eq_true] at hhere
              rcases hhere with ⟨item, hi, hm, _⟩
              exact ⟨item, hi, hm⟩
            have := scanItems_finds_sig rpcId items hallc hex
            simp [extractRpcResult, this]
          · rcases scanItems_all_sig rpcId items hallc with hn | he
            · have := extractRpcResult_raises_on_sig rest rpcId hallr
                (by rw [containsErrorSig16]; simpa using hlater)
              simp [extractRpcResult, hn, this]
            · simp [extractRpcResult, he]
      | none =>
          rcases hsome with hhere | hlater
          · simp [pyItems] at hhere
          · have := extractRpcResult_raises_on_sig rest rpcId hallr
              (by rw [containsErrorSig16]; simpa using hlater)
            simpa [extractRpcResult] using this
      | pbool b =>
          rcases hsome with hhere | hlater
          · simp [pyItems] at hhere
          · have := extractRpcResult_raises_on_sig rest rpcId hallr
              (by rw [containsErrorSig16]; simpa using hlater)
            simpa [extractRpcResult] using this
      | pint n =>
          rcases hsome with hhere | hlater
          · simp [pyItems] at hhere
          · have := extractRpcResult_raises_on_sig rest rpcId hallr
              (by rw [containsErrorSig16]; simpa using hlater)
            simpa [extractRpcResult] using this
      | pfloat f =>
          rcases hsome with hhere | hlater
          · simp [pyItems] at hhere
          · have := extractRpcResult_raises_on_sig rest rpcId hallr
              (by rw [containsErrorSig16]; simpa using hlater)
            simpa [extractRpcResult] using this
      | pstr s =>
          rcases hsome with hhere | hlater
          · simp [pyItems] at hhere
          · have := extractRpcResult_raises_on_sig rest rpcId hallr
              (by rw [containsErrorSig16]; simpa using hlater)
            simpa [extractRpcResult] using this

/-- Witness for C1 (amended) at a response whose only chunk for the rpc id
is the error-16 signature chunk. -/
theorem extractRpcResult_raises_on_sig_witness :
    extractRpcResult
      [.plist [.plist [.pstr "wrb.fr".toList, .pstr "rpc".toList, .none, .none,
                       .none, .plist [.pint 16], .pstr "generic".toList]]]
      "rpc".toList = .error () :=
  extractRpcResult_raises_on_sig
    [.plist [.plist [.pstr "wrb.fr".toList, .pstr "rpc".toList, .none, .none,
                     .none, .plist [.pint 16], .pstr "generic".toList]]]
    "rpc".toList (by decide) (by decide)

/-! ## C6: `_extract_cell_text` -/

/-- Every part collected by the list case is non-empty. -/
theorem extractCellParts_ne_nil : ∀ (xs : List PyVal) (d : Nat),
    ∀ p ∈ extractCellParts xs d, p ≠ []
  | [], d => by simp [extractCellParts]
  | x :: rest, d => by
      intro p hp
      rw [show extractCellParts (x :: rest) d =
            (if extractCellText x (d + 1) = [] then extractCellParts rest d
             else extractCellText x (d + 1) :: extractCellParts rest d) from rfl] at hp
      by_cases ht : extractCellText x (d + 1) = []
      · rw [if_pos ht] at hp
        exact extractCellParts_ne_nil rest d p hp
      · rw [if_neg ht] at hp
        rcases List.mem_cons.mp hp with rfl | hp2
        · exact ht
        · exact extractCellParts_ne_nil rest d p hp2

mutual
/-- Every stripped fragment is non-empty. -/
theorem cellTextFragments_ne_nil : ∀ (cell : PyVal) (d : Nat) (p : PyStr),
    p ∈ cellTextFragments cell d → p ≠ []
  | cell, d, p => by
      intro hp
      cases cell with
      | pstr s =>
          by_cases hd : d > 100
          · simp [cellTextFragments, hd] at hp
          · simp only [cellTextFragments, if_neg hd] at hp
            by_cases hs : pyStrip s = []
            · simp [hs] at hp
            · rw [if_neg hs] at hp
              rcases List.mem_singleton.mp hp with rfl
              exact hs
      | plist xs =>
          by_cases hd : d > 100
          · simp [cellTextFragments, hd] at hp
          · simp only [cellTextFragments, if_neg hd] at hp
            exact cellTextFragmentsList_ne_nil xs d p hp
      | none => simp [cellTextFragments] at hp
      | pbool b => simp [cellTextFragments] at hp
      | pint n => simp [cellTextFragments] at hp
      | pfloat f => simp [cellTextFragments] at hp
/-- List version of `cellTextFragments_ne_nil`. -/
theorem cellTextFragmentsList_ne_nil : ∀ (xs : List PyVal) (d : Nat) (p : PyStr),
    p ∈ cellTextFragments.cellTextFragmentsList xs d → p ≠ []
  | [], d, p => by simp [cellTextFragments.cellTextFragmentsList]
  | x :: rest, d, p => by
      intro hp
      simp only [cellTextFragments.cellTextFragmentsList, List.mem_append] at hp
      rcases hp with h | h
      · exact cellTextFragments_ne_nil x (d + 1) p h
      · exact cellTextFragmentsList_ne_nil rest d p h
end

/-- A space-join of non-empty strings is empty only for the empty list. -/
theorem joinSpace_ne_nil : ∀ l : List PyStr, l ≠ [] → (∀ p ∈ l, p ≠ []) →
    joinSpace l ≠ []
  | [], h, _ => absurd rfl h
  | [x], _, hall => by simpa [joinSpace] using hall x (by simp)
  | x :: y :: rest, _, _ => by simp [joinSpace]

/-- Splitting a space-join across an append, when the left part is
non-empty. -/
theorem joinSpace_append : ∀ F1 FR : List PyStr, F1 ≠ [] →
    joinSpace (F1 ++ FR) =
      joinSpace F1 ++ (if FR = [] then [] else ' ' :: joinSpace FR)
  | [], _, h => absurd rfl h
  | [x], FR, _ => by cases FR <;> simp [joinSpace]
  | x1 :: x2 :: F1x, FR, _ => by
      have ih := joinSpace_append (x2 :: F1x) FR (by simp)
      have h1 : joinSpace (x1 :: x2 :: (F1x ++ FR)) =
          x1 ++ ' ' :: joinSpace (x2 :: (F1x ++ FR)) := rfl
      have h2 : joinSpace (x1 :: x2 :: F1x) = x1 ++ ' ' :: joinSpace (x2 :: F1x) := rfl
      show joinSpace (x1 :: x2 :: (F1x ++ FR)) = _
      rw [h1, show (x2 :: (F1x ++ FR)) = (x2 :: F1x) ++ FR from rfl, ih, h2]
      simp

mutual
/-- The code's text extraction equals the space-join of the stripped
non-empty string leaves within the depth cap. -/
theorem extractCellText_eq_fragments : ∀ (cell : PyVal) (d : Nat),
    extractCellText cell d = joinSpace (cellTextFragments cell d)
  | cell, d => by
      cases cell with
      | pstr s =>
          by_cases hd : d > 100
          · simp [extractCellText, cellTextFragments, hd, joinSpace]
          · simp only [extractCellText, cellTextFragments, if_neg hd]
            by_cases hs : pyStrip s = []
            · simp [hs, joinSpace]
            · simp [hs, joinSpace]
      | plist xs =>
          by_cases hd : d > 100
          · simp [extractCellText, cellTextFragments, hd, joinSpace]
          · simp only [extractCellText, cellTextFragments, if_neg hd]
            exact (extractCellParts_eq_fragments xs d).1
      | none => simp [extractCellText, cellTextFragments, joinSpace]
      | pbool b => simp [extractCellText, cellTextFragments, joinSpace]
      | pint n => simp [extractCellText, cellTextFragments, joinSpace]
      | pfloat f => simp [extractCellText, cellTextFragments, joinSpace]
/-- The collected parts of a list of cells join to the same string as the
concatenated fragments, and are empty together. -/
theorem extractCellParts_eq_fragments : ∀ (xs : List PyVal) (d : Nat),
    joinSpace (extractCellParts xs d) =
      joinSpace (cellTextFragments.cellTextFragmentsList xs d) ∧
    (extractCellParts xs d = [] ↔
      cellTextFragments.cellTextFragmentsList xs d = [])
  | [], d => by simp [extractCellParts, cellTextFragments.cellTextFragmentsList]
  | x :: rest, d => by
      have ht := extractCellText_eq_fragments x (d + 1)
      have ih := extractCellParts_eq_fragments rest d
      have hparts : extractCellParts (x :: rest) d =
          (if extractCellText x (d + 1) = [] then extractCellParts rest d
           else extractCellText x (d + 1) :: extractCellParts rest d) := rfl
      have hfr : cellTextFragments.cellTextFragmentsList (x :: rest) d =
          cellTextFragments x (d + 1) ++
            cellTextFragments.cellTextFragmentsList rest d := rfl
      by_cases htz : extractCellText x (d + 1) = []
      · have hfx : cellTextFragments x (d + 1) = [] := by
          by_contra hne
          exact joinSpace_ne_nil _ hne
            (fun p hp => cellTextFragments_ne_nil x (d + 1) p hp) (ht ▸ htz)
        rw [hparts, if_pos htz, hfr, hfx, List.nil_append]
        exact ih
      · have hfx : cellTextFragments x (d + 1) ≠ [] := by
          intro h0
          rw [ht, h0] at htz
          exact htz rfl
        rw [hparts, if_neg htz, hfr, joinSpace_append _ _ hfx]
        constructor
        · cases hP : extractCellParts rest d with
          | nil =>
              have hFR : cellTextFragments.cellTextFragmentsList rest d = [] :=
                ih.2.mp hP
              rw [hFR, if_pos rfl]
              simp [joinSpace, ht]
          | cons p ps =>
              have hFR : cellTextFragments.cellTextFragmentsList rest d ≠ [] := by
                intro h0
                have := ih.2.mpr h0
                rw [hP] at this
                exact List.cons_ne_nil _ _ this
              rw [if_neg hFR]
              have hJ : joinSpace (extractCellText x (d + 1) :: p :: ps) =
                  extractCellText x (d + 1) ++ ' ' :: joinSpace (p :: ps) := rfl
              rw [hJ, ht]
              have h1 := ih.1
              rw [hP] at h1
              rw [h1]
        · constructor
          · intro h0; exact absurd h0 (List.cons_ne_nil _ _)
          · intro h0
            exact absurd h0 (by simp [hfx])
end

/-- C6 counterexample: on the cell `["  ab  ", "cd"]` the extracted text
is `"ab cd"`, not the concatenation `"  ab  cd"` of the string leaves
encountered: leaves are stripped and joined with single spaces. -/
theorem extractCellText_counterexample :
    extractCellText mixedCell 0 = "ab cd".toList ∧
    (cellStringLeaves mixedCell 0).flatten = "  ab  cd".toList ∧
    extractCellText mixedCell 0 ≠ (cellStringLeaves mixedCell 0).flatten := by
  refine ⟨by decide, by decide, by decide⟩

/-- C6 (amended): `_extract_cell_text` is total, its recursion is capped
at 100 nesting levels (content below the cap contributes the empty
string), its result is the single-space join of the whitespace-stripped
non-empty string leaves encountered within the cap, and numeric
(integer/float) leaves contribute nothing. -/
theorem extractCellText_characterization (cell : PyVal) (depth : Nat) :
    extractCellText cell depth = joinSpace (cellTextFragments cell depth) ∧
    (100 < depth → extractCellText cell depth = []) ∧
    (∀ n : Int, extractCellText (.pint n) depth = []) ∧
    (∀ f : Nat, extractCellText (.pfloat f) depth = []) := by
  refine ⟨extractCellText_eq_fragments cell depth, ?_, ?_, ?_⟩
  · intro hd
    cases cell <;> simp [extractCellText, hd]
  · intro n
    by_cases hd : depth > 100 <;> simp [extractCellText, hd]
  · intro f
    by_cases hd : depth > 100 <;> simp [extractCellText, hd]

/-- Witness for C6 at a concrete cell and an over-cap depth. -/
theorem extractCellText_characterization_witness :
    extractCellText (.pstr "  x  ".toList) 101 = [] :=
  (extractCellText_characterization (.pstr "  x  ".toList) 101).2.1 (by decide)

/-! ## C5: `_parse_data_table` row shapes -/

/-- `fitRow` always produces the header length. -/
theorem fitRow_length (h : Nat) (vs : List PyStr) : (fitRow h vs).length = h := by
  unfold fitRow
  split <;> simp <;> omega

/-- The loop invariant of `_parse_data_table` with column validation on:
from a state whose accumulated rows all have the header length, whose
headers are empty if all-empty, and whose rows are empty while on the
header index, a successful run returns headers that are non-empty, not
all-empty, and rows of exactly the header length. -/
theorem dtLoop_ok_shape : ∀ (rowsArr : List PyVal) (i : Nat)
    (headers : List PyStr) (rows : List (List PyStr)) (skipped : Nat),
    (∀ r ∈ rows, r.length = headers.length) →
    (headers.all (· = []) = true → headers = []) →
    (i = 0 → rows = []) →
    ∀ h2 r2, dtLoop true rowsArr i headers rows skipped = .ok (h2, r2) →
      (∀ r ∈ r2, r.length = h2.length) ∧ h2 ≠ [] ∧ ∃ hh ∈ h2, hh ≠ [] := by
  intro rowsArr i headers rows skipped
  induction rowsArr, i, headers, rows, skipped using dtLoop.induct with
  | validate => exact true
  | case1 =>
      intro hlen hallmt hi0 h2 r2 hok
      simp [dtLoop] at hok
  | case2 =>
      rename_i i headers skipped hh
      intro hlen hallmt hi0 h2 r2 hok
      simp [dtLoop, hh] at hok
  | case3 =>
      rename_i i headers rows skipped hh hr
      intro hlen hallmt hi0 h2 r2 hok
      simp only [dtLoop, if_neg hh, if_neg hr, Except.ok.injEq, Prod.mk.injEq] at hok
      obtain ⟨rfl, rfl⟩ := hok
      refine ⟨hlen, hh, ?_⟩
      by_contra hno
      push_neg at hno
      exact hh (hallmt (by simpa [List.all_eq_true] using hno))
  | case4 =>
      rename_i rest headers rows skipped e0 e1 cells tail rv hemp
      intro hlen hallmt hi0 h2 r2 hok
      simp [dtLoop, hemp] at hok
  | case5 =>
      rename_i rest headers rows skipped e0 e1 cells tail rv hemp ih
      intro hlen hallmt hi0 h2 r2 hok
      have hrows0 : rows = [] := hi0 rfl
      subst hrows0
      simp only [dtLoop, if_pos rfl, hemp, if_false] at hok
      exact ih (by simp) (fun hall => absurd hall hemp) (fun _ => rfl) h2 r2 hok
  | case6 =>
      rename_i rest i headers rows skipped e0 e1 cells tail rv hi row2 ih
      intro hlen hallmt hi0 h2 r2 hok
      simp only [dtLoop, if_neg hi] at hok
      refine ih ?_ hallmt (by omega) h2 r2 hok
      intro r hr
      rcases List.mem_append.mp hr with hr1 | hr2
      · exact hlen r hr1
      · rcases List.mem_singleton.mp hr2 with rfl
        have hrow2 : row2 = if (true && rv.length != headers.length) = true
            then fitRow headers.length rv else rv := rfl
        rw [hrow2]
        split
        · exact fitRow_length _ _
        · rename_i hcond
          simpa using hcond
  | case7 =>
      rename_i rs rest i headers rows skipped hnm ih
      intro hlen hallmt hi0 h2 r2 hok
      have hred : dtLoop true (rs :: rest) i headers rows skipped =
          dtLoop true rest (i + 1) headers rows (skipped + 1) := by
        cases rs with
        | plist xs =>
            match xs with
            | [] => rfl
            | [a] => rfl
            | [a, b] => rfl
            | a :: b :: c :: t3 =>
                cases c with
                | plist cells => exact (hnm a b cells t3 rfl).elim
                | none => rfl
                | pbool x => rfl
                | pint x => rfl
                | pfloat x => rfl
                | pstr x => rfl
        | none => rfl
        | pbool x => rfl
        | pint x => rfl
        | pfloat x => rfl
        | pstr x => rfl
      rw [hred] at hok
      exact ih hlen hallmt (by omega) h2 r2 hok

/-- C5: with column validation on (the default), a successfully parsed
data table has every returned row of exactly the header length: a shorter
extracted row is padded with empty strings via `fitRow`, a longer one is
truncated to the header count; and a table whose first (header) row is
empty or all-empty is rejected with the typed parse error, so success
implies the headers are neither empty nor all empty strings. -/
theorem parseDataTable_shape :
    (∀ (raw : PyVal) (headers : List PyStr) (rows : List (List PyStr)),
       parseDataTable raw true = .ok (headers, rows) →
       (∀ r ∈ rows, r.length = headers.length) ∧ headers ≠ [] ∧
       ∃ hh ∈ headers, hh ≠ []) ∧
    (∀ (h : Nat) (vs : List PyStr), vs.length < h →
       fitRow h vs = vs ++ List.replicate (h - vs.length) []) ∧
    (∀ (h : Nat) (vs : List PyStr), h < vs.length →
       fitRow h vs = vs.take h) := by
  refine ⟨?_, ?_, ?_⟩
  · intro raw headers rows hok
    rw [parseDataTable] at hok
    cases hnav : navDataTable raw with
    | error e => rw [hnav] at hok; simp at hok
    | ok rowsArr =>
        rw [hnav] at hok
        exact dtLoop_ok_shape rowsArr 0 [] [] 0 (by simp) (by simp)
          (fun _ => rfl) headers rows hok
  · intro h vs hlt
    unfold fitRow
    rw [if_pos hlt]
  · intro h vs hgt
    unfold fitRow
    rw [if_neg (by omega)]

/-- Witness for C5 at the sample table (headers of length 2, one short
and one long data row). -/
theorem parseDataTable_shape_witness :
    ((∀ r ∈ [["a".toList, ([] : PyStr)], ["b".toList, "c".toList]],
        r.length = (["h1".toList, "h2".toList] : List PyStr).length) ∧
      (["h1".toList, "h2".toList] : List PyStr) ≠ [] ∧
      ∃ hh ∈ (["h1".toList, "h2".toList] : List PyStr), hh ≠ []) ∧
    fitRow 2 ["a".toList] = [["a".toList, ([] : PyStr)]].flatten :=
  ⟨parseDataTable_shape.1 sampleDataTable _ _ (by decide),
   parseDataTable_shape.2.1 2 ["a".toList] (by decide)⟩

/-! ## C4: `_call_rpc` auth recovery is bounded and terminal -/

mutual
/-- Per-state bounds: layer 1 runs at most once (never once `_retry` is
set), layers 2-3 at most once (never once both flags are set), and the
POST count is bounded by the remaining server-retry budget plus a fresh
budget per remaining recovery layer. -/
theorem callRpcAux_bounds (net : Nat → RpcNetOutcome) (rOk dOk r d : Bool)
    (sR k : Nat) :
    (callRpcAux net rOk dOk r d sR k).refreshCalls ≤ cond r 0 1 ∧
    (callRpcAux net rOk dOk r d sR k).reloadCalls ≤ cond (r && d) 0 1 ∧
    (callRpcAux net rOk dOk r d sR k).netCalls ≤
      1 + (DEFAULT_MAX_RETRIES - sR) + cond r 0 4 + cond (r && d) 0 4 := by
  cases hnet : net k with
  | ok v =>
      rw [callRpcAux.eq_def, hnet]
      cases r <;> cases d <;> simp <;> omega
  | err16 =>
      rw [callRpcAux.eq_def, hnet]
      obtain ⟨h1, h2, h3⟩ := authRecover_bounds net rOk dOk r d k
      cases r <;> cases d <;> simp_all <;> omega
  | http s =>
      rw [callRpcAux.eq_def, hnet]
      by_cases hret : RETRYABLE_STATUS_CODES.contains s = true
      · by_cases hs : sR < DEFAULT_MAX_RETRIES
        · obtain ⟨h1, h2, h3⟩ := callRpcAux_bounds net rOk dOk r d (sR + 1) (k + 1)
          simp only [hret, if_true, hs]
          cases r <;> cases d <;> simp_all [DEFAULT_MAX_RETRIES] <;> omega
        · simp only [hret, if_true, hs]
          cases r <;> cases d <;> simp <;> omega
      · by_cases hauth : s = 401 ∨ s = 403
        · obtain ⟨h1, h2, h3⟩ := authRecover_bounds net rOk dOk r d k
          simp only [hret, if_false, hauth, if_true]
          cases r <;> cases d <;> simp_all <;> omega
        · simp only [hret, if_false, hauth]
          cases r <;> cases d <;> simp <;> omega
termination_by (cond r 0 16) + (cond d 0 8) + (DEFAULT_MAX_RETRIES - sR) + 1
decreasing_by all_goals
  first
  | decide
  | (simp only [DEFAULT_MAX_RETRIES, cond] at *) <;> omega
  | omega
/-- Bounds for the recovery block itself. -/
theorem authRecover_bounds (net : Nat → RpcNetOutcome) (rOk dOk r d : Bool)
    (k : Nat) :
    (authRecover net rOk dOk r d k).refreshCalls ≤ cond r 0 1 ∧
    (authRecover net rOk dOk r d k).reloadCalls ≤ cond (r && d) 0 1 ∧
    (authRecover net rOk dOk r d k).netCalls ≤
      1 + cond r 0 4 + cond (r && d) 0 4 := by
  cases r with
  | false =>
      cases rOk with
      | true =>
          obtain ⟨h1, h2, h3⟩ := callRpcAux_bounds net true dOk true false 0 (k + 1)
          rw [authRecover.eq_def]
          cases d <;> simp_all [DEFAULT_MAX_RETRIES] <;> omega
      | false =>
          cases d with
          | false =>
              cases dOk with
              | true =>
                  obtain ⟨h1, h2, h3⟩ :=
                    callRpcAux_bounds net false true true true 0 (k + 1)
                  rw [authRecover.eq_def]
                  simp_all [DEFAULT_MAX_RETRIES] <;> omega
              | false => rw [authRecover.eq_def]; simp
          | true => cases dOk <;> rw [authRecover.eq_def] <;> simp
  | true =>
      cases d with
      | false =>
          cases dOk with
          | true =>
              obtain ⟨h1, h2, h3⟩ := callRpcAux_bounds net rOk true true true 0 (k + 1)
              rw [authRecover.eq_def]
              simp_all [DEFAULT_MAX_RETRIES] <;> omega
          | false => rw [authRecover.eq_def]; simp
      | true => rw [authRecover.eq_def]; simp
termination_by (cond r 0 16) + (cond d 0 8)
decreasing_by all_goals
  first
  | decide
  | (simp only [DEFAULT_MAX_RETRIES, cond] at *) <;> omega
  | omega
end

mutual
/-- When every network outcome is an authentication failure, every call
state raises the terminal `AuthenticationError` with the login
instruction. -/
theorem callRpcAux_terminal (net : Nat → RpcNetOutcome) (rOk dOk r d : Bool)
    (sR k : Nat) (hAuth : ∀ i, isAuthFailOutcome (net i) = true) :
    (callRpcAux net rOk dOk r d sR k).outcome = .error (.auth terminalAuthMsg) := by
  have hk := hAuth k
  cases hnet : net k with
  | ok v => rw [hnet] at hk; simp [isAuthFailOutcome] at hk
  | err16 =>
      rw [callRpcAux.eq_def, hnet]
      exact authRecover_terminal net rOk dOk r d k hAuth
  | http s =>
      rw [hnet] at hk
      simp only [isAuthFailOutcome, Bool.or_eq_true, beq_iff_eq] at hk
      have hret : RETRYABLE_STATUS_CODES.contains s = false := by
        rcases hk with rfl | rfl <;> decide
      rw [callRpcAux.eq_def, hnet]
      simp only [hret, Bool.false_eq_true, if_false, hk, if_true]
      exact authRecover_terminal net rOk dOk r d k hAuth
termination_by (cond r 0 16) + (cond d 0 8) + (DEFAULT_MAX_RETRIES - sR) + 1
decreasing_by all_goals
  first
  | decide
  | (simp only [DEFAULT_MAX_RETRIES, cond] at *) <;> omega
  | omega
/-- The recovery block itself ends terminal under persistent failure. -/
theorem authRecover_terminal (net : Nat → RpcNetOutcome) (rOk dOk r d : Bool)
    (k : Nat) (hAuth : ∀ i, isAuthFailOutcome (net i) = true) :
    (authRecover net rOk dOk r d k).outcome = .error (.auth terminalAuthMsg) := by
  cases r with
  | false =>
      cases rOk with
      | true =>
          have ih := callRpcAux_terminal net true dOk true false 0 (k + 1) hAuth
          rw [authRecover.eq_def]
          simp_all
      | false =>
          cases d with
          | false =>
              cases dOk with
              | true =>
                  have ih := callRpcAux_terminal net false true true true 0 (k + 1) hAuth
                  rw [authRecover.eq_def]
                  simp_all
              | false => rw [authRecover.eq_def]; simp
          | true => cases dOk <;> rw [authRecover.eq_def] <;> simp
  | true =>
      cases d with
      | false =>
          cases dOk with
          | true =>
              have ih := callRpcAux_terminal net rOk true true true 0 (k + 1) hAuth
              rw [authRecover.eq_def]
              simp_all
          | false => rw [authRecover.eq_def]; simp
      | true => rw [authRecover.eq_def]; simp
termination_by (cond r 0 16) + (cond d 0 8)
decreasing_by all_goals
  first
  | decide
  | (simp only [DEFAULT_MAX_RETRIES, cond] at *) <;> omega
  | omega
end

/-- C4: for an originating `_call_rpc` call, recovery layer 1 (token
refresh) is attempted at most once and layers 2-3 (disk reload /
headless re-auth) at most once; the recursion is bounded (at most 12
network POSTs in total, whatever the network and recovery outcomes); and
when every network attempt keeps failing with an auth failure (HTTP
401/403 or in-band error 16), so that every attempted recovery layer
fails to restore the session, the call raises the terminal
`AuthenticationError` telling the user to run `nlm login`. -/
theorem callRpc_auth_recovery (net : Nat → RpcNetOutcome) (refreshOk reloadOk : Bool) :
    (callRpc net refreshOk reloadOk).refreshCalls ≤ 1 ∧
    (callRpc net refreshOk reloadOk).reloadCalls ≤ 1 ∧
    (callRpc net refreshOk reloadOk).netCalls ≤ 12 ∧
    ((∀ i, isAuthFailOutcome (net i) = true) →
      (callRpc net refreshOk reloadOk).outcome = .error (.auth terminalAuthMsg)) := by
  obtain ⟨h1, h2, h3⟩ := callRpcAux_bounds net refreshOk reloadOk false false 0 0
  exact ⟨by simpa using h1, by simpa using h2,
         by simpa [DEFAULT_MAX_RETRIES] using h3,
         fun h => callRpcAux_terminal net refreshOk reloadOk false false 0 0 h⟩

/-- Witness for C4: persistent error-16 responses with both recovery
layers failing. -/
theorem callRpc_auth_recovery_witness :
    (callRpc (fun _ => .err16) false false).outcome
      = .error (.auth terminalAuthMsg) ∧
    (callRpc (fun _ => .err16) false false).netCalls ≤ 12 ∧
    (callRpc (fun _ => .err16) false false).refreshCalls ≤ 1 :=
  ⟨(callRpc_auth_recovery (fun _ => .err16) false false).2.2.2 (fun _ => rfl),
   (callRpc_auth_recovery (fun _ => .err16) false false).2.2.1,
   (callRpc_auth_recovery (fun _ => .err16) false false).1⟩

/-! ## C9: `_download_url` temp-file integrity -/

/-- The `try` body never touches the destination path. -/
theorem downloadUrlInner_final (resp : DlResponse) (fs : FileSys) :
    (downloadUrlInner resp fs).2.final = fs.final := by
  unfold downloadUrlInner
  repeat' split
  all_goals rfl

/-- A successful `try` body leaves the full content in the temp file. -/
theorem downloadUrlInner_ok (resp : DlResponse) (fs fs1 : FileSys) (content : PyStr) :
    downloadUrlInner resp fs = (.ok content, fs1) →
    content = resp.chunks.flatten ∧ fs1.temp = some resp.chunks.flatten := by
  unfold downloadUrlInner
  intro h
  repeat' split at h
  all_goals first
    | (simp only [Prod.mk.injEq, Except.ok.injEq] at h
       obtain ⟨h1, h2⟩ := h
       exact ⟨h1.symm, by rw [← h2]⟩)
    | simp_all

/-- C9: if `_download_url` fails for any reason (status error, login
redirect, or an exception mid-transfer), the temp file is removed, the
destination path is untouched, and the failure surfaces as
`ArtifactDownloadError`; only on full success is the temp file renamed
onto the destination, which then holds the full streamed content.  At a
login-redirect response the raised error is the wrapped
`ArtifactDownloadError` (the `AuthenticationError` of the sniff is
swallowed by the blanket `except Exception` handler). -/
theorem downloadUrl_integrity :
    (∀ (resp : DlResponse) (fs : FileSys) (e : DlRaise),
       (downloadUrl resp fs).1 = .error e →
       (downloadUrl resp fs).2.temp = Option.none ∧
       (downloadUrl resp fs).2.final = fs.final ∧
       ∃ cause, e = .artifactDownload cause) ∧
    (∀ (resp : DlResponse) (fs : FileSys),
       (downloadUrl resp fs).1 = .ok () →
       (downloadUrl resp fs).2 = ⟨Option.none, some resp.chunks.flatten⟩) ∧
    downloadUrl loginRedirectResponse ⟨Option.none, Option.none⟩ =
      (.error (.artifactDownload .authRedirect), ⟨Option.none, Option.none⟩) := by
  refine ⟨?_, ?_, ?_⟩
  · intro resp fs e herr
    have hfin := downloadUrlInner_final resp fs
    rcases hres : downloadUrlInner resp fs with ⟨res, fs1⟩
    rw [hres] at hfin
    cases res with
    | ok content => rw [downloadUrl, hres] at herr; simp at herr
    | error e0 =>
        rw [downloadUrl, hres] at herr ⊢
        simp only [Except.error.injEq] at herr
        exact ⟨rfl, hfin, e0, herr.symm⟩
  · intro resp fs hok
    have hfin := downloadUrlInner_final resp fs
    rcases hres : downloadUrlInner resp fs with ⟨res, fs1⟩
    cases res with
    | ok content =>
        have := downloadUrlInner_ok resp fs fs1 content hres
        rw [downloadUrl, hres]
        simp [this.2]
    | error e0 => rw [downloadUrl, hres] at hok; simp at hok
  · decide

/-- Witness for C9 at a mid-transfer interruption after one chunk. -/
theorem downloadUrl_integrity_witness :
    (downloadUrl ⟨false, "video/mp4".toList, ["ab".toList, "cd".toList],
        some (1, .httpxError)⟩ ⟨Option.none, Option.none⟩).2.temp = Option.none ∧
    (downloadUrl ⟨false, "video/mp4".toList, ["ab".toList, "cd".toList],
        some (1, .httpxError)⟩ ⟨Option.none, Option.none⟩).2.final = Option.none := by
  have h := downloadUrl_integrity.1
    ⟨false, "video/mp4".toList, ["ab".toList, "cd".toList], some (1, .httpxError)⟩
    ⟨Option.none, Option.none⟩ (.artifactDownload (.streamFail .httpxError))
    (by decide)
  exact ⟨h.1, h.2.1⟩

end NLM
